import Mathlib

/-!
Verification of the DVF transaction-processing engine (`process_dvf.py`).

The Polars pipeline is shallowly embedded: a dataframe is a `List` of row
structures, float columns are modelled as `ℚ`, nullable columns as `Option`,
and each pipeline stage becomes a Lean function on row lists.  Polars
semantics that matter here are modelled explicitly:

* `group_by` groups null keys like ordinary values; group order is
  canonicalised to first appearance (claims never depend on group order);
* aggregations `first`/`sum`/`mean`/`median`/`quantile` follow Polars
  (null-ignoring sums and means, `nearest` interpolation for `quantile`,
  `linear` interpolation for `median`);
* `join(how="left")` does not match null keys (Polars default), so rows with
  a null join key receive null right-hand columns;
* `filter` keeps a row only when the predicate is definitely true
  (Kleene three-valued logic: a null predicate drops the row).

Float arithmetic is embedded as exact rational arithmetic; division by zero
(which the pipeline never exercises on the paths proved below) yields `0`
in `ℚ` instead of an IEEE infinity.
-/

namespace DVF

/-! ### Generic insertion sort (kernel-computable stand-in for a column sort) -/

def insertLe {α : Type} (le : α → α → Bool) (a : α) : List α → List α
  | [] => [a]
  | b :: l => if le a b then a :: b :: l else b :: insertLe le a l

def sortByLe {α : Type} (le : α → α → Bool) (l : List α) : List α :=
  l.foldr (insertLe le) []

/-! ### First-occurrence deduplication and `group_by` -/

def dedupFirstAux {κ : Type} [DecidableEq κ] (seen : List κ) : List κ → List κ
  | [] => []
  | k :: l => if k ∈ seen then dedupFirstAux seen l else k :: dedupFirstAux (k :: seen) l

/-- The distinct values of a list, keeping the first occurrence of each, in
order of first appearance. -/
def dedupFirst {κ : Type} [DecidableEq κ] (l : List κ) : List κ :=
  dedupFirstAux [] l

/-- Polars `group_by`, canonicalised to first-appearance group order.  Null
keys form a group like any other value.  Each group keeps the frame order of
its rows. -/
def groupBy {α κ : Type} [DecidableEq κ] (key : α → κ) (l : List α) :
    List (κ × List α) :=
  (dedupFirst (l.map key)).map (fun k => (k, l.filter (fun a => decide (key a = k))))

/-! ### Column aggregations (Polars semantics) -/

/-- Polars `first()`: the first element of the group, which may itself be
null.  Groups produced by `groupBy` are never empty. -/
def firstAgg {α β : Type} (f : α → Option β) : List α → Option β
  | [] => none
  | a :: _ => f a

/-- Polars `sum()` over a nullable float column: nulls are ignored, an
empty or all-null column sums to `0`. -/
def sumAgg {α : Type} (f : α → Option ℚ) (g : List α) : ℚ :=
  (g.filterMap f).sum

/-- Polars `sum()` over a nullable integer column. -/
def sumAggInt {α : Type} (f : α → Option Int) (g : List α) : Int :=
  (g.filterMap f).sum

/-- Polars `mean()`: mean of the non-null values, null when there are none. -/
def meanAgg {α : Type} (f : α → Option ℚ) (g : List α) : Option ℚ :=
  match g.filterMap f with
  | [] => none
  | vs => some (vs.sum / (vs.length : ℚ))

/-- Round half away from zero (Rust `f64::round`, used by Polars for the
`nearest` quantile interpolation); the argument is always nonnegative here,
so this is `⌊x + 1/2⌋`, computed on the normal form of the rational. -/
def roundNearest (x : ℚ) : Nat :=
  ((x + 1/2).num / ((x + 1/2).den : Int)).toNat

def rleB (a b : ℚ) : Bool := decide (a ≤ b)

/-- Polars `quantile(q)` with the default `nearest` interpolation:
the sorted value at index `round(q * (n - 1))`; null on an empty column. -/
def quantileNearest (q : ℚ) (xs : List ℚ) : Option ℚ :=
  match xs with
  | [] => none
  | _ :: _ => some ((sortByLe rleB xs).getD (roundNearest (q * ((xs.length : ℚ) - 1))) 0)

/-- Polars `median()` (`quantile(0.5, "linear")`): middle element for odd
length, mean of the two middle elements for even length. -/
def medianAgg (xs : List ℚ) : Option ℚ :=
  match xs with
  | [] => none
  | _ :: _ =>
    let s := sortByLe rleB xs
    let n := xs.length
    if n % 2 = 1 then some (s.getD (n / 2) 0)
    else some ((s.getD (n / 2 - 1) 0 + s.getD (n / 2) 0) / 2)

/-! ### The raw DVF row (`DVF_SCHEMA`, restricted to the columns the
consolidation pipeline reads) and a calendar date -/

structure DVFDate where
  year : Int
  month : Nat
  day : Nat
deriving DecidableEq

/-- One raw DVF CSV row.  Identifier and code columns are nullable strings,
money and surface columns nullable rationals (embedding `Float64`), counts
nullable integers, exactly as in `DVF_SCHEMA`.  Pass-through address columns
that no modelled stage reads are omitted. -/
structure RawRow where
  id_mutation : Option String
  date_mutation : Option DVFDate
  numero_disposition : Option Int
  nature_mutation : Option String
  valeur_fonciere : Option ℚ
  code_commune : Option String
  code_departement : Option String
  id_parcelle : Option String
  type_local : Option String
  surface_reelle_bati : Option ℚ
  nombre_pieces_principales : Option Int
  code_nature_culture : Option String
  nature_culture : Option String
  code_nature_culture_speciale : Option String
  nature_culture_speciale : Option String
  surface_terrain : Option ℚ
  longitude : Option ℚ
  latitude : Option ℚ
deriving DecidableEq

/-! ### `fill_nature_culture_nulls` -/

def fill_nature_culture_nulls (l : List RawRow) : List RawRow :=
  l.map (fun r =>
    { r with
      code_nature_culture := some (r.code_nature_culture.getD "unknown")
      code_nature_culture_speciale := some (r.code_nature_culture_speciale.getD "unknown")
      nature_culture := some (r.nature_culture.getD "unknown")
      nature_culture_speciale := some (r.nature_culture_speciale.getD "unknown") })

/-! ### `remove_duplicate_lines` -/

/-- The `group_cols` key of `remove_duplicate_lines`. -/
def dedupKey (r : RawRow) :
    Option String × Option Int × Option String × Option String :=
  (r.id_mutation, r.numero_disposition, r.id_parcelle, r.nature_mutation)

/-- The first `nature_culture` observed (in frame order) in the
`(id_mutation, numero_disposition, id_parcelle, nature_mutation)` group of
a row. -/
def groupFirstCulture (l : List RawRow)
    (k : Option String × Option Int × Option String × Option String) :
    Option String :=
  firstAgg (fun r => r.nature_culture) (l.filter (fun r => decide (dedupKey r = k)))

/-- Stage `remove_duplicate_lines`: compute the first `nature_culture` per group,
left-join it back on the four group columns and keep the rows whose
`nature_culture` equals it.  The left join produces no match for a row with
a null in any group column (Polars joins never match null keys), and the
equality filter drops a row whenever either side is null. -/
def remove_duplicate_lines (l : List RawRow) : List RawRow :=
  let first_culture :=
    (groupBy dedupKey l).map (fun kg => (kg.1, firstAgg (fun r => r.nature_culture) kg.2))
  l.filter (fun r =>
    let joined : Option String :=
      match r.id_mutation, r.numero_disposition, r.id_parcelle, r.nature_mutation with
      | some _, some _, some _, some _ =>
        match first_culture.find? (fun e => decide (e.1 = dedupKey r)) with
        | some e => e.2
        | none => none
      | _, _, _, _ => none
    match r.nature_culture, joined with
    | some a, some b => decide (a = b)
    | _, _ => false)

/-! ### `add_dependency` -/

structure DepKey where
  dk_mutation : Option String
  dk_disposition : Option Int
  dk_parcelle : Option String
  dk_culture : Option String
  dk_culture_speciale : Option String
  dk_nature : Option String
deriving DecidableEq

def depKey (r : RawRow) : DepKey :=
  ⟨r.id_mutation, r.numero_disposition, r.id_parcelle,
   r.nature_culture, r.nature_culture_speciale, r.nature_mutation⟩

structure Row2 extends RawRow where
  has_dependency : Option Bool
deriving DecidableEq

/-- Stage `add_dependency`: per six-column group, flag whether any row of the
group has `type_local == "Dépendance"`; left-join the flag back.  Rows with
a null in any of the six key columns receive a null flag. -/
def add_dependency (l : List RawRow) : List Row2 :=
  let dependencies :=
    (groupBy depKey l).map
      (fun kg => (kg.1, kg.2.any (fun r => decide (r.type_local = some "Dépendance"))))
  l.map (fun r =>
    let flag : Option Bool :=
      match r.id_mutation, r.numero_disposition, r.id_parcelle,
            r.nature_culture, r.nature_culture_speciale, r.nature_mutation with
      | some _, some _, some _, some _, some _, some _ =>
        match dependencies.find? (fun e => decide (e.1 = depKey r)) with
        | some e => some e.2
        | none => none
      | _, _, _, _, _, _ => none
    { toRawRow := r, has_dependency := flag })

/-! ### `drop_unwanted_values` -/

/-- The three admissible `nature_mutation` values. -/
def allowedNatures : List String :=
  ["Vente", "Vente en l\x27état futur d\x27achèvement", "Adjudication"]

/-- Stage `drop_unwanted_values`: a row is kept only when every conjunct of the
filter is definitely true (a null in any tested column makes the Kleene
conjunction null, which drops the row). -/
def drop_unwanted_values (l : List Row2) : List Row2 :=
  l.filter (fun r =>
    (match r.nature_mutation with
     | some n => decide (n ∈ allowedNatures)
     | none => false)
    && (match r.type_local with
        | some t => decide (t = "Maison" ∨ t = "Appartement")
        | none => false)
    && (match r.valeur_fonciere with
        | some v => decide (100 < v)
        | none => false)
    && (match r.surface_reelle_bati with
        | some s => decide (0 < s)
        | none => false)
    && r.latitude.isSome
    && r.longitude.isSome)

/-! ### `compute_total_surface_and_price` -/

/-- The `(id_mutation, numero_disposition)` disposition key. -/
def key2 (r : Row2) : Option String × Option Int :=
  (r.id_mutation, r.numero_disposition)

structure Row3 extends Row2 where
  surface_batie_totale : Option ℚ
  valeur_moyenne : Option ℚ
  prix_de_vente : Option ℚ
deriving DecidableEq

/-- The `surface_totals` group table of `compute_total_surface_and_price`:
per disposition key, the total built surface (null-ignoring sum) and the
mean declared price. -/
def ctspTotals (l : List Row2) : List ((Option String × Option Int) × ℚ × Option ℚ) :=
  (groupBy key2 l).map (fun kg =>
    (kg.1, sumAgg (fun r => r.surface_reelle_bati) kg.2,
     meanAgg (fun r => r.valeur_fonciere) kg.2))

/-- The left join of `surface_totals` onto one row (null keys match
nothing), followed by
`prix_de_vente = (valeur_moyenne / surface_batie_totale) * surface_reelle_bati`
(null whenever an operand is null; a zero total surface yields `0` in `ℚ`
where the float pipeline would produce an infinity — no claim touches that
case). -/
def ctspRow (totals : List ((Option String × Option Int) × ℚ × Option ℚ))
    (r : Row2) : Row3 :=
  let joined : Option (ℚ × Option ℚ) :=
    match r.id_mutation, r.numero_disposition with
    | some _, some _ =>
      match totals.find? (fun e => decide (e.1 = key2 r)) with
      | some e => some e.2
      | none => none
    | _, _ => none
  { toRow2 := r
    surface_batie_totale := joined.map (fun sm => sm.1)
    valeur_moyenne := joined.bind (fun sm => sm.2)
    prix_de_vente :=
      joined.bind (fun sm =>
        match sm.2, r.surface_reelle_bati with
        | some mv, some sr => some (mv / sm.1 * sr)
        | _, _ => none) }

def compute_total_surface_and_price (l : List Row2) : List Row3 :=
  l.map (ctspRow (ctspTotals l))

/-! ### `reduce_data` -/

def key3 (r : Row3) : Option String × Option Int :=
  (r.id_mutation, r.numero_disposition)

/-- One consolidated disposition row: scalar columns take the first
value of the group, per-property columns stay as ordered lists, and
`nombre_pieces_principales` is the null-ignoring group sum. -/
structure ReducedRow where
  id_mutation : Option String
  numero_disposition : Option Int
  date_mutation : Option DVFDate
  nature_mutation : Option String
  valeur_fonciere : Option ℚ
  code_commune : Option String
  code_departement : Option String
  id_parcelle : List (Option String)
  type_local : Option String
  surface_reelle_bati : List (Option ℚ)
  nombre_pieces_principales : Int
  nature_culture : List (Option String)
  surface_terrain : List (Option ℚ)
  longitude : Option ℚ
  latitude : Option ℚ
  has_dependency : Option Bool
  prix_de_vente : List (Option ℚ)
  surface_batie_totale : Option ℚ
deriving DecidableEq

/-- Stage `reduce_data`: fold each `(id_mutation, numero_disposition)` group to a
single row. -/
def reduce_data (l : List Row3) : List ReducedRow :=
  (groupBy key3 l).map (fun kg =>
    { id_mutation := kg.1.1
      numero_disposition := kg.1.2
      date_mutation := firstAgg (fun r => r.date_mutation) kg.2
      nature_mutation := firstAgg (fun r => r.nature_mutation) kg.2
      valeur_fonciere := firstAgg (fun r => r.valeur_fonciere) kg.2
      code_commune := firstAgg (fun r => r.code_commune) kg.2
      code_departement := firstAgg (fun r => r.code_departement) kg.2
      id_parcelle := kg.2.map (fun r => r.id_parcelle)
      type_local := firstAgg (fun r => r.type_local) kg.2
      surface_reelle_bati := kg.2.map (fun r => r.surface_reelle_bati)
      nombre_pieces_principales := sumAggInt (fun r => r.nombre_pieces_principales) kg.2
      nature_culture := kg.2.map (fun r => r.nature_culture)
      surface_terrain := kg.2.map (fun r => r.surface_terrain)
      longitude := firstAgg (fun r => r.longitude) kg.2
      latitude := firstAgg (fun r => r.latitude) kg.2
      has_dependency := firstAgg (fun r => r.has_dependency) kg.2
      prix_de_vente := kg.2.map (fun r => r.prix_de_vente)
      surface_batie_totale := firstAgg (fun r => r.surface_batie_totale) kg.2 })

/-! ### `aggregate_dvf` -/

def keyR (r : ReducedRow) : Option String × Option Int :=
  (r.id_mutation, r.numero_disposition)

/-- The string key `id_mutation + "_" + numero_disposition` used by the
post-reduction uniqueness check; concatenation with a null is null. -/
def strKey (r : ReducedRow) : Option String :=
  match r.id_mutation, r.numero_disposition with
  | some i, some d => some (i ++ "_" ++ toString d)
  | _, _ => none

/-- Stage `aggregate_dvf`: run the consolidation chain, then verify that the
row count equals `n_unique` of the string key; on mismatch the Python code
raises `RuntimeError("Reduce Failed")`, modelled as `none`. -/
def aggregate_dvf (raw : List RawRow) : Option (List ReducedRow) :=
  let df :=
    reduce_data (compute_total_surface_and_price (drop_unwanted_values
      (add_dependency (remove_duplicate_lines (fill_nature_culture_nulls raw)))))
  if df.length = (dedupFirst (df.map strKey)).length then some df else none

/-! ### Outlier removal (`remove_extreme_outliers`, `remove_iqr_outliers`)

At this stage of the pipeline every metric column is non-null
(`valeur_fonciere` survived the `> 100` filter, `surface_batie_totale` and
`prix_m2` are computed, `nombre_pieces_principales` is a group sum), so the
metrics are embedded as plain values; `code_commune` can genuinely be null
and stays optional. -/

structure PRow where
  code_commune : Option String
  valeur_fonciere : ℚ
  prix_m2 : ℚ
  surface_batie_totale : ℚ
  nombre_pieces_principales : Int
deriving DecidableEq

/-- Stage `remove_extreme_outliers`: fixed strictly-exclusive thresholds. -/
def remove_extreme_outliers (l : List PRow) : List PRow :=
  l.filter (fun r =>
    decide (5 < r.surface_batie_totale) && decide (r.surface_batie_totale < 1000)
    && decide (10000 < r.valeur_fonciere) && decide (r.valeur_fonciere < 10000000)
    && decide (400 < r.prix_m2) && decide (r.prix_m2 < 30000)
    && decide (0 < r.nombre_pieces_principales) && decide (r.nombre_pieces_principales < 20))

/-- The rows of one commune, in frame order. -/
def communeRows (l : List PRow) (k : Option String) : List PRow :=
  l.filter (fun r => decide (r.code_commune = k))

/-- Tukey fence lower bound `Q1 - 1.5 * (Q3 - Q1)` of a column
(Polars `nearest` quantiles, `0` for an empty column — unreachable since
groups are non-empty). -/
def tukeyLo (xs : List ℚ) : ℚ :=
  (quantileNearest (1/4) xs).getD 0 - 3/2 * ((quantileNearest (3/4) xs).getD 0 - (quantileNearest (1/4) xs).getD 0)

/-- Tukey fence upper bound `Q3 + 1.5 * (Q3 - Q1)`. -/
def tukeyHi (xs : List ℚ) : ℚ :=
  (quantileNearest (3/4) xs).getD 0 + 3/2 * ((quantileNearest (3/4) xs).getD 0 - (quantileNearest (1/4) xs).getD 0)

/-- One row of the per-commune bounds table of `remove_iqr_outliers`. -/
structure BoundsRow where
  commune : Option String
  commune_count : Nat
  v_min : ℚ
  v_max : ℚ
  p_min : ℚ
  p_max : ℚ
  s_min : ℚ
  s_max : ℚ
  n_min : ℚ
  n_max : ℚ
deriving DecidableEq

def mkBounds (l : List PRow) (k : Option String) : BoundsRow :=
  { commune := k
    commune_count := (communeRows l k).length
    v_min := tukeyLo ((communeRows l k).map (fun r => r.valeur_fonciere))
    v_max := tukeyHi ((communeRows l k).map (fun r => r.valeur_fonciere))
    p_min := tukeyLo ((communeRows l k).map (fun r => r.prix_m2))
    p_max := tukeyHi ((communeRows l k).map (fun r => r.prix_m2))
    s_min := tukeyLo ((communeRows l k).map (fun r => r.surface_batie_totale))
    s_max := tukeyHi ((communeRows l k).map (fun r => r.surface_batie_totale))
    n_min := tukeyLo ((communeRows l k).map (fun r => (r.nombre_pieces_principales : ℚ)))
    n_max := tukeyHi ((communeRows l k).map (fun r => (r.nombre_pieces_principales : ℚ))) }

/-- The metric part of the IQR filter: strictly inside all four fences. -/
def insideFences (b : BoundsRow) (r : PRow) : Bool :=
  decide (b.v_min < r.valeur_fonciere) && decide (r.valeur_fonciere < b.v_max)
  && decide (b.p_min < r.prix_m2) && decide (r.prix_m2 < b.p_max)
  && decide (b.s_min < r.surface_batie_totale) && decide (r.surface_batie_totale < b.s_max)
  && decide (b.n_min < (r.nombre_pieces_principales : ℚ))
  && decide ((r.nombre_pieces_principales : ℚ) < b.n_max)

/-- Stage `remove_iqr_outliers`: per-commune quantile bounds (null communes form a
group like any other value), left-joined back on `code_commune` — so a row
with a null commune matches nothing and all its bound columns stay null —
then filtered by `(commune_count < 10) | (inside all four fences)`, which is
null (hence dropped) whenever the bounds are null. -/
def remove_iqr_outliers (l : List PRow) : List PRow :=
  let bounds := (groupBy (fun r => r.code_commune) l).map (fun kg => mkBounds l kg.1)
  l.filter (fun r =>
    match r.code_commune with
    | none => false
    | some c =>
      match bounds.find? (fun b => decide (b.commune = some c)) with
      | none => false
      | some b => decide (b.commune_count < 10) || insideFences b r)

/-! ### Orders used by the `sort` in `compute_time_adjusted_price` -/

/-- Lexicographic strict order on char lists (the order behind a string
column sort), written out structurally so it computes in the kernel. -/
def charListLtB : List Char → List Char → Bool
  | [], [] => false
  | [], _ :: _ => true
  | _ :: _, [] => false
  | a :: as, b :: bs => if a < b then true else if b < a then false else charListLtB as bs

def strLtB (a b : String) : Bool := charListLtB a.data b.data

/-- Strict order on a nullable string column, nulls first (Polars default). -/
def oLtS : Option String → Option String → Bool
  | none, none => false
  | none, some _ => true
  | some _, none => false
  | some a, some b => strLtB a b

/-- Non-strict order on a nullable integer column, nulls first. -/
def oLeI : Option Int → Option Int → Bool
  | none, _ => true
  | some _, none => false
  | some a, some b => decide (a ≤ b)

/-! ### `compute_time_adjusted_price` -/

/-- A transaction row as seen by the time-adjustment stage (`prix_m2` is
computed upstream and non-null). -/
structure TRow where
  code_departement : Option String
  type_local : Option String
  date_mutation : Option DVFDate
  prix_m2 : ℚ
deriving DecidableEq

/-- The year extraction `pl.col("date_mutation").dt.year()`. -/
def tYear (r : TRow) : Option Int := r.date_mutation.map (fun d => d.year)

/-- The `(code_departement, type_local, annee_mutation)` group key. -/
def tKey (r : TRow) : Option String × Option String × Option Int :=
  (r.code_departement, r.type_local, tYear r)

/-- One row of the `median_prices` lookup table. -/
structure MedEntry where
  dep : Option String
  typ : Option String
  annee : Option Int
  med : ℚ
deriving DecidableEq

/-- Non-strict lexicographic order on `(dep, typ, annee)` used by
`median_prices.sort(["code_departement", "type_local", "annee_mutation"])`. -/
def lexLe (x y : MedEntry) : Bool :=
  if x.dep = y.dep then
    (if x.typ = y.typ then oLeI x.annee y.annee else oLtS x.typ y.typ)
  else oLtS x.dep y.dep

/-- Median `prix_m2` per `(code_departement, type_local, annee_mutation)`
group (the median of a non-empty group is never null, so it is stored
plainly, defaulting the unreachable empty case to `0`). -/
def median_prices (l : List TRow) : List MedEntry :=
  (groupBy tKey l).map (fun kg =>
    ⟨kg.1.1, kg.1.2.1, kg.1.2.2, (medianAgg (kg.2.map (fun r => r.prix_m2))).getD 0⟩)

/-- Table `reference_medians`: the reference-year rows of `median_prices` (a null
year never equals the reference-year literal). -/
def reference_medians (refYear : Int) (l : List TRow) : List MedEntry :=
  (median_prices l).filter (fun e => decide (e.annee = some refYear))

/-- Table `latest_medians`: sort `median_prices` by `(dep, typ, annee)` (nulls
first), group by `(dep, typ)` and take the last median of each group. -/
def latest_medians (l : List TRow) : List (Option String × Option String × Option ℚ) :=
  (groupBy (fun e => (e.dep, e.typ)) (sortByLe lexLe (median_prices l))).map
    (fun kg => (kg.1.1, kg.1.2, kg.2.getLast?.map (fun e => e.med)))

structure FactorEntry where
  dep : Option String
  typ : Option String
  annee : Option Int
  factor : ℚ
deriving DecidableEq

/-- Table `adjustment_factors`: left-join `reference_medians` and `latest_medians`
onto `median_prices` by `(dep, typ)` (null keys match nothing), prefer the
reference median as target, fall back to the latest median, and set
`factor = target / median` when the year median is positive and a target
exists, else `1.0`. -/
def adjustment_factors (refYear : Int) (l : List TRow) : List FactorEntry :=
  (median_prices l).map (fun e =>
    let ref : Option ℚ :=
      match e.dep, e.typ with
      | some _, some _ =>
        match (reference_medians refYear l).find?
            (fun x => decide ((x.dep, x.typ) = (e.dep, e.typ))) with
        | some x => some x.med
        | none => none
      | _, _ => none
    let lat : Option ℚ :=
      match e.dep, e.typ with
      | some _, some _ =>
        match (latest_medians l).find?
            (fun x => decide ((x.1, x.2.1) = (e.dep, e.typ))) with
        | some x => x.2.2
        | none => none
      | _, _ => none
    let target : Option ℚ := match ref with | some v => some v | none => lat
    ⟨e.dep, e.typ, e.annee,
     if decide (0 < e.med) && target.isSome then target.getD 0 / e.med else 1⟩)

structure TRowAdj extends TRow where
  annee_mutation : Option Int
  prix_m2_ajuste : ℚ
deriving DecidableEq

/-- One row of `compute_time_adjusted_price`: left-join the factor table on
`(code_departement, type_local, annee_mutation)` (null keys match nothing)
and set `prix_m2_ajuste = prix_m2 * coalesce(factor, 1.0)`. -/
def ctapRow (factors : List FactorEntry) (r : TRow) : TRowAdj :=
  let f : Option ℚ :=
    match r.code_departement, r.type_local, tYear r with
    | some _, some _, some _ =>
      match factors.find? (fun x => decide ((x.dep, x.typ, x.annee) = tKey r)) with
      | some x => some x.factor
      | none => none
    | _, _, _ => none
  { toTRow := r, annee_mutation := tYear r,
    prix_m2_ajuste := r.prix_m2 * f.getD 1 }

/-- Stage `compute_time_adjusted_price`: extract the year, build the adjustment
factor lookup table, and apply it to every row. -/
def compute_time_adjusted_price (refYear : Int) (l : List TRow) : List TRowAdj :=
  l.map (ctapRow (adjustment_factors refYear l))

/-- The `median_prices` entry for a group key, as a function of the key
(`median_prices` is exactly this mapped over the distinct keys). -/
def mkMed (l : List TRow) (k : Option String × Option String × Option Int) :
    MedEntry :=
  ⟨k.1, k.2.1, k.2.2,
   (medianAgg ((l.filter (fun r => decide (tKey r = k))).map (fun r => r.prix_m2))).getD 0⟩

/-- The factor the implementation stores for a fully non-null group key:
the `adjustment_factors` entry of key `(dv, tv, av)`, written as a function
of the key. -/
def adjFactorAt (refYear : Int) (l : List TRow) (dv tv : String) (av : Int) : ℚ :=
  let e := mkMed l (some dv, some tv, some av)
  let ref : Option ℚ :=
    match (reference_medians refYear l).find?
        (fun x => decide ((x.dep, x.typ) = (some dv, some tv))) with
    | some x => some x.med
    | none => none
  let lat : Option ℚ :=
    match (latest_medians l).find?
        (fun x => decide ((x.1, x.2.1) = (some dv, some tv))) with
    | some x => x.2.2
    | none => none
  let target : Option ℚ := match ref with | some v => some v | none => lat
  if decide (0 < e.med) && target.isSome then target.getD 0 / e.med else 1

/-! Spec-level descriptions of the adjustment factor, written from the
wording of the specification (reference-year median over the median of that
year, falling back to the median of the most recent year, defaulting to 1.0), to be
compared with the implementation above. -/

/-- Rows of one `(department, type)` pair. -/
def dtRows (l : List TRow) (d t : String) : List TRow :=
  l.filter (fun r => decide (r.code_departement = some d ∧ r.type_local = some t))

/-- Rows of one `(department, type, year)` triple. -/
def dtyRows (l : List TRow) (d t : String) (a : Int) : List TRow :=
  l.filter (fun r => decide (tKey r = (some d, some t, some a)))

/-- The median `prix_m2` of a `(department, type, year)` population. -/
def yearMedian (l : List TRow) (d t : String) (a : Int) : ℚ :=
  (medianAgg ((dtyRows l d t a).map (fun r => r.prix_m2))).getD 0

/-- The reference-year median, when the reference year has observations. -/
def refMedianSpec (refYear : Int) (l : List TRow) (d t : String) : Option ℚ :=
  if dtyRows l d t refYear = [] then none else some (yearMedian l d t refYear)

/-- The (non-null) transaction years observed for a `(department, type)`. -/
def dtYears (l : List TRow) (d t : String) : List Int :=
  (dtRows l d t).filterMap tYear

/-- The median of the most recent year with observations. -/
def mostRecentMedianSpec (l : List TRow) (d t : String) : Option ℚ :=
  (dtYears l d t).max?.map (fun y => yearMedian l d t y)

/-- The claimed adjustment factor for a fully non-null `(d, t, a)` key. -/
def factorSpec (refYear : Int) (l : List TRow) (d t : String) (a : Int) : ℚ :=
  let ym := yearMedian l d t a
  let target : Option ℚ :=
    match refMedianSpec refYear l d t with
    | some v => some v
    | none => mostRecentMedianSpec l d t
  if decide (0 < ym) && target.isSome then target.getD 0 / ym else 1

/-! ### `spatial_join_iris`

Geometry is abstracted: points and planar geometries are type parameters,
`within` is the point-in-polygon predicate of the joined layer and `proj`
the EPSG:4326 → EPSG:2154 reprojection.  The claims about this stage are
about join mechanics (row counts, de-duplication, null handling), which are
independent of the geometric predicate. -/

structure IrisZone (Geom : Type) where
  code_iris : String
  nom_iris : String
  geometry : Geom

/-- The join `gpd.sjoin(points, zones, how="left", predicate="within")` on one chunk
whose points are indexed from `start` (the code always passes `0`): each
point produces one output row per matching zone, or a single null row when
no zone matches, in point order. -/
def sjoin_left {Pt Geom : Type} (within : Pt → Geom → Bool) (proj : Pt → Pt)
    (zones : List (IrisZone Geom)) (start : Nat) (pts : List Pt) :
    List (Nat × Option (IrisZone Geom)) :=
  (pts.enumFrom start).flatMap (fun ip =>
    match zones.filter (fun z => within (proj ip.2) z.geometry) with
    | [] => [(ip.1, none)]
    | m :: ms => (m :: ms).map (fun z => (ip.1, some z)))

/-- pandas `drop_duplicates(subset=["_chunk_idx"], keep="first")`. -/
def dedupByIdxAux {β : Type} (seen : List Nat) : List (Nat × β) → List (Nat × β)
  | [] => []
  | x :: l => if x.1 ∈ seen then dedupByIdxAux seen l else x :: dedupByIdxAux (x.1 :: seen) l

def dedupByIdx {β : Type} (l : List (Nat × β)) : List (Nat × β) :=
  dedupByIdxAux [] l

def idxLe {β : Type} (x y : Nat × β) : Bool := decide (x.1 ≤ y.1)

/-- One chunk of `spatial_join_iris`: left spatial join, first-match
de-duplication per `_chunk_idx`, sort by `_chunk_idx`, then the
`assert len(joined) == chunk_len` (an `AssertionError` is modelled as
`none`); finally extract the `code_iris`/`nom_iris` columns (null for
unmatched points). -/
def process_chunk {Pt Geom : Type} (within : Pt → Geom → Bool) (proj : Pt → Pt)
    (zones : List (IrisZone Geom)) (pts : List Pt) :
    Option (List (Option String × Option String)) :=
  let joined := sjoin_left within proj zones 0 pts
  let ded := dedupByIdx joined
  let sorted := sortByLe idxLe ded
  if sorted.length = pts.length then
    some (sorted.map (fun x => (x.2.map (fun z => z.code_iris), x.2.map (fun z => z.nom_iris))))
  else none

/-- The chunk loop of `spatial_join_iris`, modelled by take/drop recursion
(the Python loop slices `[i*chunk_size, (i+1)*chunk_size)`); the fuel is the
row count, enough for any positive chunk size, and a zero chunk size is an
error (`n_chunks` would divide by zero). -/
def sj_loop {Pt Geom : Type} (within : Pt → Geom → Bool) (proj : Pt → Pt)
    (zones : List (IrisZone Geom)) (chunkSize : Nat) :
    Nat → List Pt → Option (List (Option String × Option String))
  | 0, [] => some []
  | 0, _ :: _ => none
  | _ + 1, [] => some []
  | fuel + 1, p :: rest =>
    match process_chunk within proj zones ((p :: rest).take chunkSize),
          sj_loop within proj zones chunkSize fuel ((p :: rest).drop chunkSize) with
    | some r, some tail => some (r ++ tail)
    | _, _ => none

/-- Stage `spatial_join_iris`: process the frame in chunks of `chunk_size` rows
and append the per-chunk `code_iris`/`nom_iris` columns in order. -/
def spatial_join_iris {Pt Geom : Type} (within : Pt → Geom → Bool) (proj : Pt → Pt)
    (zones : List (IrisZone Geom)) (chunkSize : Nat) (pts : List Pt) :
    Option (List (Option String × Option String)) :=
  sj_loop within proj zones chunkSize pts.length pts

/-- The first zone containing a point, as code/name columns — the expected
per-row result of the spatial join. -/
def firstZoneCols {Pt Geom : Type} (within : Pt → Geom → Bool) (proj : Pt → Pt)
    (zones : List (IrisZone Geom)) (p : Pt) : Option String × Option String :=
  ((zones.find? (fun z => within (proj p) z.geometry)).map (fun z => z.code_iris),
   (zones.find? (fun z => within (proj p) z.geometry)).map (fun z => z.nom_iris))

/-! ### Spec-side helpers for the remaining claims -/

/-- All four grouping-key columns of `remove_duplicate_lines` are non-null. -/
def dedupKeyNonNull (r : RawRow) : Prop :=
  r.id_mutation.isSome ∧ r.numero_disposition.isSome
    ∧ r.id_parcelle.isSome ∧ r.nature_mutation.isSome

/-- The rows of one disposition inside a `Row2` frame. -/
def dispRows (l : List Row2) (i : String) (d : Int) : List Row2 :=
  l.filter (fun r => decide (key2 r = (some i, some d)))

/-- The total built surface of one disposition (null-ignoring sum). -/
def dispSurfaceTotal (l : List Row2) (i : String) (d : Int) : ℚ :=
  sumAgg (fun r => r.surface_reelle_bati) (dispRows l i d)

/-- The sum of the allocated per-property prices of one disposition in the
output of `compute_total_surface_and_price` (null allocations ignored). -/
def dispPriceSum (l : List Row2) (i : String) (d : Int) : ℚ :=
  (((compute_total_surface_and_price l).filter
      (fun r => decide (key2 r.toRow2 = (some i, some d)))).filterMap
    (fun r => r.prix_de_vente)).sum

/-! ### Properties of the generic machinery -/

theorem mem_insertLe {α : Type} (le : α → α → Bool) (a x : α) (l : List α) :
    x ∈ insertLe le a l ↔ x = a ∨ x ∈ l := by
  induction l with
  | nil => simp [insertLe]
  | cons b t ih =>
    by_cases h : le a b = true
    · simp only [insertLe, if_pos h, List.mem_cons]
    · simp only [insertLe, if_neg h, List.mem_cons, ih]
      tauto

theorem insertLe_perm {α : Type} (le : α → α → Bool) (a : α) (l : List α) :
    List.Perm (insertLe le a l) (a :: l) := by
  induction l with
  | nil => simp [insertLe]
  | cons b t ih =>
    by_cases h : le a b
    · simp [insertLe, h]
    · simp only [insertLe, h, Bool.false_eq_true, if_false]
      exact List.Perm.trans (List.Perm.cons b ih) (List.Perm.swap a b t)

theorem sortByLe_perm {α : Type} (le : α → α → Bool) (l : List α) :
    List.Perm (sortByLe le l) l := by
  induction l with
  | nil => simp [sortByLe]
  | cons a t ih =>
    exact List.Perm.trans (insertLe_perm le a (sortByLe le t)) (List.Perm.cons a ih)

theorem mem_sortByLe {α : Type} (le : α → α → Bool) (x : α) (l : List α) :
    x ∈ sortByLe le l ↔ x ∈ l :=
  (sortByLe_perm le l).mem_iff

theorem pairwise_insertLe {α : Type} {le : α → α → Bool}
    (htrans : ∀ a b c, le a b = true → le b c = true → le a c = true)
    (htotal : ∀ a b, le a b = true ∨ le b a = true)
    (a : α) (l : List α) (hl : l.Pairwise (fun x y => le x y = true)) :
    (insertLe le a l).Pairwise (fun x y => le x y = true) := by
  induction l with
  | nil => simp [insertLe]
  | cons b t ih =>
    rw [List.pairwise_cons] at hl
    obtain ⟨hb, ht⟩ := hl
    by_cases h : le a b = true
    · simp only [insertLe, if_pos h]
      rw [List.pairwise_cons]
      refine ⟨?_, List.pairwise_cons.2 ⟨hb, ht⟩⟩
      intro x hx
      rcases List.mem_cons.1 hx with rfl | hx
      · exact h
      · exact htrans a b x h (hb x hx)
    · simp only [insertLe, if_neg h]
      rw [List.pairwise_cons]
      refine ⟨?_, ih ht⟩
      intro x hx
      rcases (mem_insertLe le a x t).1 hx with heq | hx
      · rcases htotal a b with h' | h'
        · exact absurd h' h
        · exact heq ▸ h'
      · exact hb x hx

theorem pairwise_sortByLe {α : Type} {le : α → α → Bool}
    (htrans : ∀ a b c, le a b = true → le b c = true → le a c = true)
    (htotal : ∀ a b, le a b = true ∨ le b a = true)
    (l : List α) : (sortByLe le l).Pairwise (fun x y => le x y = true) := by
  induction l with
  | nil => simp [sortByLe]
  | cons a t ih => exact pairwise_insertLe htrans htotal a (sortByLe le t) ih

theorem sortByLe_eq_self {α : Type} (le : α → α → Bool) (l : List α)
    (hl : l.Pairwise (fun x y => le x y = true)) : sortByLe le l = l := by
  induction l with
  | nil => rfl
  | cons a t ih =>
    rcases hl with _ | ⟨ha, ht⟩
    have : sortByLe le (a :: t) = insertLe le a (sortByLe le t) := rfl
    rw [this, ih ht]
    cases t with
    | nil => rfl
    | cons b u => simp [insertLe, ha b (by simp)]

theorem mem_dedupFirstAux {κ : Type} [DecidableEq κ] (k : κ) :
    ∀ (l seen : List κ), k ∈ dedupFirstAux seen l ↔ k ∈ l ∧ k ∉ seen := by
  intro l
  induction l with
  | nil => intro seen; simp [dedupFirstAux]
  | cons a t ih =>
    intro seen
    by_cases ha : a ∈ seen
    · rw [dedupFirstAux, if_pos ha, ih]
      constructor
      · rintro ⟨h1, h2⟩; exact ⟨List.mem_cons_of_mem a h1, h2⟩
      · rintro ⟨h1, h2⟩
        rcases List.mem_cons.1 h1 with rfl | h1
        · exact absurd ha h2
        · exact ⟨h1, h2⟩
    · rw [dedupFirstAux, if_neg ha]
      by_cases hk : k = a
      · subst hk; simp [ha]
      · simp only [List.mem_cons, hk, false_or, ih, List.mem_cons]

theorem mem_dedupFirst {κ : Type} [DecidableEq κ] (l : List κ) (k : κ) :
    k ∈ dedupFirst l ↔ k ∈ l := by
  unfold dedupFirst
  rw [mem_dedupFirstAux]
  simp

theorem nodup_dedupFirstAux {κ : Type} [DecidableEq κ] :
    ∀ (l seen : List κ), (dedupFirstAux seen l).Nodup := by
  intro l
  induction l with
  | nil => intro seen; simp [dedupFirstAux]
  | cons a t ih =>
    intro seen
    by_cases ha : a ∈ seen
    · rw [dedupFirstAux, if_pos ha]; exact ih seen
    · rw [dedupFirstAux, if_neg ha]
      refine List.Nodup.cons ?_ (ih (a :: seen))
      intro hmem
      exact ((mem_dedupFirstAux a t (a :: seen)).1 hmem).2 (by simp)

theorem nodup_dedupFirst {κ : Type} [DecidableEq κ] (l : List κ) :
    (dedupFirst l).Nodup :=
  nodup_dedupFirstAux l []

theorem mem_groupBy {α κ : Type} [DecidableEq κ] (key : α → κ) (l : List α)
    (k : κ) (g : List α) :
    (k, g) ∈ groupBy key l ↔
      k ∈ l.map key ∧ g = l.filter (fun a => decide (key a = k)) := by
  unfold groupBy
  rw [List.mem_map]
  constructor
  · rintro ⟨k', hk', heq⟩
    obtain ⟨rfl, rfl⟩ : k' = k ∧ (l.filter (fun a => decide (key a = k'))) = g := by
      constructor
      · exact (congrArg Prod.fst heq)
      · exact (congrArg Prod.snd heq)
    exact ⟨(mem_dedupFirst _ _).1 hk', rfl⟩
  · rintro ⟨hk, rfl⟩
    exact ⟨k, (mem_dedupFirst _ _).2 hk, rfl⟩

theorem groupBy_keys {α κ : Type} [DecidableEq κ] (key : α → κ) (l : List α) :
    (groupBy key l).map Prod.fst = dedupFirst (l.map key) := by
  unfold groupBy
  rw [List.map_map]
  simp [Function.comp_def]

theorem groupBy_group_mem {α κ : Type} [DecidableEq κ] {key : α → κ} {l : List α}
    {k : κ} {g : List α} (h : (k, g) ∈ groupBy key l) {a : α} (ha : a ∈ g) :
    a ∈ l ∧ key a = k := by
  obtain ⟨-, rfl⟩ := (mem_groupBy key l k g).1 h
  have := List.mem_filter.1 ha
  exact ⟨this.1, by simpa using this.2⟩

/-- Resolving `find?` on a list produced by mapping a function with recoverable keys
over a list of distinct keys: the unique entry for a present key is found. -/
theorem find?_map_nodup {κ β : Type} [DecidableEq κ]
    (F : κ → β) (keyOf : β → κ) (hF : ∀ k, keyOf (F k) = k)
    (ks : List κ) (hnd : ks.Nodup) (k : κ) (hk : k ∈ ks) :
    (ks.map F).find? (fun b => decide (keyOf b = k)) = some (F k) := by
  induction ks with
  | nil => cases hk
  | cons k' t ih =>
    rcases hnd with _ | ⟨hk', hnd⟩
    by_cases h : k' = k
    · subst h
      simp [List.find?, hF]
    · have hk : k ∈ t := by
        rcases List.mem_cons.1 hk with rfl | hk
        · exact absurd rfl h
        · exact hk
      have : (fun b => decide (keyOf b = k)) (F k') = false := by
        simp [hF, h]
      simp only [List.map_cons, List.find?, this]
      exact ih hnd hk

theorem find?_unique {β : Type} {p : β → Bool} {x : β} :
    ∀ {L : List β}, x ∈ L → p x = true → (∀ y ∈ L, p y = true → y = x) →
      L.find? p = some x := by
  intro L
  induction L with
  | nil => intro hx; cases hx
  | cons a t ih =>
    intro hx hpx huniq
    cases hpa : p a with
    | true =>
      have : a = x := huniq a (by simp) hpa
      subst this
      simp [List.find?, hpa]
    | false =>
      rcases List.mem_cons.1 hx with rfl | hx
      · exact absurd hpx (by simp [hpa])
      · simp only [List.find?, hpa]
        exact ih hx hpx (fun y hy hpy => huniq y (List.mem_cons_of_mem a hy) hpy)

theorem filterMap_const {α β : Type} {f : α → Option β} {c : β} :
    ∀ {g : List α}, (∀ x ∈ g, f x = some c) →
      g.filterMap f = List.replicate g.length c := by
  intro g
  induction g with
  | nil => intro _; rfl
  | cons a t ih =>
    intro h
    rw [List.filterMap_cons, h a (by simp)]
    simp only [List.length_cons, List.replicate_succ]
    rw [ih (fun x hx => h x (List.mem_cons_of_mem a hx))]

/-! ### Claim C4 — hard outlier thresholds -/

/-- Claim C4: a row survives `remove_extreme_outliers` if and only if its
built surface lies strictly in (5, 1000), its declared price strictly in
(10000, 10000000), its price per m² strictly in (400, 30000) and its room
count strictly in (0, 20); all bounds strictly exclusive, for every input
row. -/
theorem extreme_outliers_characterization (l : List PRow) (r : PRow) (h : r ∈ l) :
    r ∈ remove_extreme_outliers l ↔
      (5 < r.surface_batie_totale ∧ r.surface_batie_totale < 1000
        ∧ 10000 < r.valeur_fonciere ∧ r.valeur_fonciere < 10000000
        ∧ 400 < r.prix_m2 ∧ r.prix_m2 < 30000
        ∧ 0 < r.nombre_pieces_principales ∧ r.nombre_pieces_principales < 20) := by
  unfold remove_extreme_outliers
  rw [List.mem_filter]
  simp [h, and_assoc]

def c4row : PRow :=
  { code_commune := some "75056", valeur_fonciere := 200000, prix_m2 := 2000,
    surface_batie_totale := 100, nombre_pieces_principales := 4 }

theorem extreme_outliers_characterization_witness :
    c4row ∈ remove_extreme_outliers [c4row] :=
  (extreme_outliers_characterization [c4row] c4row (List.mem_singleton.mpr rfl)).mpr
    (by norm_num [c4row])

/-! ### Claim C10 — rows with a null commune never survive the IQR stage -/

/-- Claim C10: every input row of `remove_iqr_outliers` whose `code_commune`
is null is removed from the output regardless of its metric values: the
left join back on `code_commune` does not match null keys, so the filter
predicate is null for such a row and drops it. -/
theorem iqr_null_commune_dropped (l : List PRow) (r : PRow) (_h : r ∈ l)
    (hc : r.code_commune = none) : r ∉ remove_iqr_outliers l := by
  intro hmem
  unfold remove_iqr_outliers at hmem
  rw [List.mem_filter] at hmem
  rw [hc] at hmem
  simp at hmem

def c10row : PRow :=
  { code_commune := none, valeur_fonciere := 200000, prix_m2 := 2000,
    surface_batie_totale := 100, nombre_pieces_principales := 4 }

theorem iqr_null_commune_dropped_witness :
    c10row ∉ remove_iqr_outliers [c10row] :=
  iqr_null_commune_dropped [c10row] c10row (List.mem_singleton.mpr rfl) rfl

/-! ### Claim C9 — the folded room count is the group sum -/

/-- Claim C9: in `reduce_data`, the `nombre_pieces_principales` of the
folded disposition equals the (null-ignoring) sum of
`nombre_pieces_principales` over all constituent property rows of its
`(id_mutation, numero_disposition)` group — not the first value and not a
list. -/
theorem reduce_data_rooms_sum (l : List Row3) (r : ReducedRow)
    (h : r ∈ reduce_data l) :
    r.nombre_pieces_principales
      = ((l.filter (fun x =>
            decide (key3 x = (r.id_mutation, r.numero_disposition)))).filterMap
          (fun x => x.nombre_pieces_principales)).sum := by
  unfold reduce_data at h
  rw [List.mem_map] at h
  obtain ⟨⟨k, g⟩, hkg, rfl⟩ := h
  obtain ⟨hk, rfl⟩ := (mem_groupBy key3 l k g).1 hkg
  rfl

def c9row1 : Row3 :=
  { id_mutation := some "2024-1", date_mutation := some ⟨2024, 1, 15⟩,
    numero_disposition := some 1, nature_mutation := some "Vente",
    valeur_fonciere := some 317000, code_commune := some "75056",
    code_departement := some "75", id_parcelle := some "P1",
    type_local := some "Maison", surface_reelle_bati := some 120,
    nombre_pieces_principales := some 5,
    code_nature_culture := some "unknown", nature_culture := some "unknown",
    code_nature_culture_speciale := some "unknown",
    nature_culture_speciale := some "unknown", surface_terrain := none,
    longitude := some 2, latitude := some 48, has_dependency := some false,
    surface_batie_totale := some 175, valeur_moyenne := some 317000,
    prix_de_vente := none }

def c9row2 : Row3 :=
  { c9row1 with
    id_parcelle := some "P2", type_local := some "Appartement",
    surface_reelle_bati := some 55, nombre_pieces_principales := some 2 }

/-- The consolidated row that `reduce_data` produces from the two example
property rows; its room count is the group sum `5 + 2 = 7`. -/
def c9out : ReducedRow :=
  { id_mutation := some "2024-1", numero_disposition := some 1,
    date_mutation := some ⟨2024, 1, 15⟩, nature_mutation := some "Vente",
    valeur_fonciere := some 317000, code_commune := some "75056",
    code_departement := some "75", id_parcelle := [some "P1", some "P2"],
    type_local := some "Maison", surface_reelle_bati := [some 120, some 55],
    nombre_pieces_principales := 7,
    nature_culture := [some "unknown", some "unknown"],
    surface_terrain := [none, none], longitude := some 2, latitude := some 48,
    has_dependency := some false, prix_de_vente := [none, none],
    surface_batie_totale := some 175 }

theorem reduce_data_rooms_sum_witness :
    c9out.nombre_pieces_principales
      = (([c9row1, c9row2].filter (fun x =>
            decide (key3 x = (c9out.id_mutation, c9out.numero_disposition)))).filterMap
          (fun x => x.nombre_pieces_principales)).sum :=
  reduce_data_rooms_sum [c9row1, c9row2] c9out (by
    rw [show reduce_data [c9row1, c9row2] = [c9out] from rfl]
    exact List.mem_singleton.mpr rfl)

/-! ### Claim C1 — canonical-key uniqueness of the consolidated table -/

theorem reduce_data_keys (l : List Row3) :
    (reduce_data l).map keyR = dedupFirst (l.map key3) := by
  unfold reduce_data groupBy
  rw [List.map_map, List.map_map]
  exact List.map_id'' (fun k => rfl) _

/-- Claim C1: any table returned by `aggregate_dvf` (rather than aborting
with `RuntimeError`) has pairwise-distinct `(id_mutation,
numero_disposition)` keys — exactly one row per canonical key. -/
theorem aggregate_dvf_unique_key (raw : List RawRow) (df : List ReducedRow)
    (h : aggregate_dvf raw = some df) : (df.map keyR).Nodup := by
  simp only [aggregate_dvf] at h
  split at h
  · obtain rfl := Option.some.inj h
    rw [reduce_data_keys]
    exact nodup_dedupFirst _
  · cases h

def c1raw1 : RawRow :=
  { id_mutation := some "2024-1", date_mutation := some ⟨2024, 1, 15⟩,
    numero_disposition := some 1, nature_mutation := some "Vente",
    valeur_fonciere := some 317000, code_commune := some "75056",
    code_departement := some "75", id_parcelle := some "P1",
    type_local := some "Maison", surface_reelle_bati := some 120,
    nombre_pieces_principales := some 5, code_nature_culture := none,
    nature_culture := none, code_nature_culture_speciale := none,
    nature_culture_speciale := none, surface_terrain := none,
    longitude := some 2, latitude := some 48 }

def c1raw2 : RawRow :=
  { c1raw1 with
    id_parcelle := some "P2", type_local := some "Appartement",
    surface_reelle_bati := some 55, nombre_pieces_principales := some 2 }

/-! ### Claim C2 — proportional price allocation sums to the sale price -/

theorem sum_map_mul (c : ℚ) (xs : List ℚ) :
    (xs.map (fun x => c * x)).sum = c * xs.sum := by
  induction xs with
  | nil => simp
  | cons a t ih => simp [ih, mul_add]

/-- Claim C2: for a disposition `(i, d)` whose rows all carry the same
declared price `V` and whose total built surface is positive, the allocated
per-property prices `(valeur_moyenne / surface_batie_totale) *
surface_reelle_bati` computed by `compute_total_surface_and_price` sum to
`V` over the disposition, within the claimed `1e-2` absolute tolerance
(exactly, in the rational embedding). -/
theorem allocated_price_sum (l : List Row2) (i : String) (d : Int) (V : ℚ)
    (hV : ∀ r ∈ l, key2 r = (some i, some d) → r.valeur_fonciere = some V)
    (hS : 0 < dispSurfaceTotal l i d) :
    |dispPriceSum l i d - V| ≤ 1 / 100 := by
  have hg : dispRows l i d ≠ [] := by
    intro he
    unfold dispSurfaceTotal at hS
    rw [he] at hS
    simp [sumAgg] at hS
  obtain ⟨r0, hr0⟩ := List.exists_mem_of_ne_nil _ hg
  have hr0' := List.mem_filter.1 hr0
  have hr0k : key2 r0 = (some i, some d) := by simpa using hr0'.2
  have hkmem : ((some i : Option String), (some d : Option Int)) ∈ l.map key2 :=
    List.mem_map.2 ⟨r0, hr0'.1, hr0k⟩
  have hconst : ∀ x ∈ dispRows l i d, x.valeur_fonciere = some V := by
    intro x hx
    have hx' := List.mem_filter.1 hx
    exact hV x hx'.1 (by simpa using hx'.2)
  have hmean : meanAgg (fun r => r.valeur_fonciere) (dispRows l i d) = some V := by
    unfold meanAgg
    rw [filterMap_const hconst]
    cases hn : (dispRows l i d).length with
    | zero => exact absurd (List.length_eq_zero.1 hn) hg
    | succ m =>
      simp only [List.replicate_succ]
      show some ((V :: List.replicate m V).sum / ((V :: List.replicate m V).length : ℚ))
        = some V
      have hsum : (V :: List.replicate m V).sum = ((m : ℚ) + 1) * V := by
        rw [List.sum_cons, List.sum_replicate, nsmul_eq_mul]
        ring
      have hlen : ((V :: List.replicate m V).length : ℚ) = (m : ℚ) + 1 := by
        simp
      rw [hsum, hlen, mul_div_cancel_left₀]
      positivity
  have hts : ctspTotals l = (dedupFirst (l.map key2)).map (fun k =>
      (k, sumAgg (fun r => r.surface_reelle_bati) (l.filter (fun a => decide (key2 a = k))),
       meanAgg (fun r => r.valeur_fonciere) (l.filter (fun a => decide (key2 a = k))))) := by
    unfold ctspTotals groupBy
    rw [List.map_map]
    rfl
  have hfind : (ctspTotals l).find?
      (fun e => decide (e.1 = ((some i : Option String), (some d : Option Int))))
      = some (((some i : Option String), (some d : Option Int)),
          dispSurfaceTotal l i d,
          meanAgg (fun r => r.valeur_fonciere) (dispRows l i d)) := by
    rw [hts]
    exact find?_map_nodup _ Prod.fst (fun k => rfl) _ (nodup_dedupFirst _) _
      ((mem_dedupFirst _ _).2 hkmem)
  have hrow : ∀ r ∈ dispRows l i d,
      (ctspRow (ctspTotals l) r).prix_de_vente
        = (r.surface_reelle_bati).map
            (fun sr => V / dispSurfaceTotal l i d * sr) := by
    intro r hr
    have hr' := List.mem_filter.1 hr
    have hk : key2 r = (some i, some d) := by simpa using hr'.2
    have hid : r.id_mutation = some i := congrArg Prod.fst hk
    have hnd : r.numero_disposition = some d := congrArg Prod.snd hk
    simp only [ctspRow, hid, hnd, hk, hfind, hmean]
    cases r.surface_reelle_bati with
    | none => rfl
    | some sr => rfl
  unfold dispPriceSum compute_total_surface_and_price
  rw [List.filter_map, List.filterMap_map]
  rw [show (l.filter ((fun x : Row3 =>
        decide (key2 x.toRow2 = ((some i : Option String), (some d : Option Int))))
      ∘ ctspRow (ctspTotals l))) = dispRows l i d from rfl]
  simp only [Function.comp_def]
  rw [List.filterMap_congr (fun x hx => hrow x hx)]
  rw [← List.map_filterMap]
  rw [show ((dispRows l i d).filterMap (fun r => r.surface_reelle_bati))
      = (dispRows l i d).filterMap (fun r => r.surface_reelle_bati) from rfl]
  rw [sum_map_mul]
  rw [show ((dispRows l i d).filterMap (fun r => r.surface_reelle_bati)).sum
      = dispSurfaceTotal l i d from rfl]
  rw [div_mul_cancel₀ V (ne_of_gt hS)]
  simp

/-- The round-trip example of the specification: a house of 120 m² and an
apartment of 55 m² sold together for 317000. -/
def c2house : Row2 :=
  { id_mutation := some "2024-1", date_mutation := some ⟨2024, 1, 15⟩,
    numero_disposition := some 1, nature_mutation := some "Vente",
    valeur_fonciere := some 317000, code_commune := some "75056",
    code_departement := some "75", id_parcelle := some "P1",
    type_local := some "Maison", surface_reelle_bati := some 120,
    nombre_pieces_principales := some 5, code_nature_culture := some "unknown",
    nature_culture := some "unknown", code_nature_culture_speciale := some "unknown",
    nature_culture_speciale := some "unknown", surface_terrain := none,
    longitude := some 2, latitude := some 48, has_dependency := some false }

def c2apartment : Row2 :=
  { c2house with
    id_parcelle := some "P2", type_local := some "Appartement",
    surface_reelle_bati := some 55, nombre_pieces_principales := some 2 }

theorem allocated_price_sum_witness :
    dispSurfaceTotal [c2house, c2apartment] "2024-1" 1 = 175
      ∧ |dispPriceSum [c2house, c2apartment] "2024-1" 1 - 317000| ≤ 1 / 100 := by
  constructor
  · norm_num [dispSurfaceTotal, dispRows, sumAgg, key2, c2house, c2apartment,
      List.filter_cons, List.filterMap_cons]
  · exact allocated_price_sum [c2house, c2apartment] "2024-1" 1 317000
      (by decide)
      (by norm_num [dispSurfaceTotal, dispRows, sumAgg, key2, c2house, c2apartment,
            List.filter_cons, List.filterMap_cons])

/-! ### Claim C3 — per-commune IQR filtering -/

/-- Claim C3: in `remove_iqr_outliers`, a row of commune `c` survives if and
only if either the post-threshold transaction count of the commune is `< 10`
(small communes bypass the stage entirely), or the row lies strictly inside
the Tukey fence `(Q1 - 1.5*IQR, Q3 + 1.5*IQR)` of the commune for each of the
four metrics, the fences being computed per metric over the rows of the
commune itself. -/
theorem iqr_filter_characterization (l : List PRow) (r : PRow) (c : String)
    (hmem : r ∈ l) (hc : r.code_commune = some c) :
    r ∈ remove_iqr_outliers l ↔
      ((communeRows l (some c)).length < 10
        ∨ (tukeyLo ((communeRows l (some c)).map (fun x => x.valeur_fonciere))
              < r.valeur_fonciere
            ∧ r.valeur_fonciere
              < tukeyHi ((communeRows l (some c)).map (fun x => x.valeur_fonciere))
            ∧ tukeyLo ((communeRows l (some c)).map (fun x => x.prix_m2)) < r.prix_m2
            ∧ r.prix_m2 < tukeyHi ((communeRows l (some c)).map (fun x => x.prix_m2))
            ∧ tukeyLo ((communeRows l (some c)).map (fun x => x.surface_batie_totale))
              < r.surface_batie_totale
            ∧ r.surface_batie_totale
              < tukeyHi ((communeRows l (some c)).map (fun x => x.surface_batie_totale))
            ∧ tukeyLo ((communeRows l (some c)).map
                (fun x => (x.nombre_pieces_principales : ℚ)))
              < (r.nombre_pieces_principales : ℚ)
            ∧ (r.nombre_pieces_principales : ℚ)
              < tukeyHi ((communeRows l (some c)).map
                (fun x => (x.nombre_pieces_principales : ℚ))))) := by
  have hkmem : (some c) ∈ l.map (fun x : PRow => x.code_commune) :=
    List.mem_map.2 ⟨r, hmem, hc⟩
  have hbounds :
      ((groupBy (fun x : PRow => x.code_commune) l).map
          (fun kg => mkBounds l kg.1)).find? (fun b => decide (b.commune = some c))
        = some (mkBounds l (some c)) := by
    rw [groupBy, List.map_map]
    rw [show ((fun kg : Option String × List PRow => mkBounds l kg.1)
          ∘ (fun k => (k, l.filter (fun a => decide (a.code_commune = k)))))
        = (fun k => mkBounds l k) from rfl]
    exact find?_map_nodup (fun k => mkBounds l k) (fun b => b.commune)
      (fun k => rfl) _ (nodup_dedupFirst _) _ ((mem_dedupFirst _ _).2 hkmem)
  simp only [remove_iqr_outliers, List.mem_filter, hmem, true_and, hc, hbounds]
  simp only [insideFences, mkBounds, Bool.or_eq_true, Bool.and_eq_true,
    decide_eq_true_eq]
  tauto

def c3row : PRow :=
  { code_commune := some "13001", valeur_fonciere := 250000, prix_m2 := 2500,
    surface_batie_totale := 100, nombre_pieces_principales := 4 }

theorem iqr_filter_characterization_witness :
    c3row ∈ remove_iqr_outliers [c3row] :=
  (iqr_filter_characterization [c3row] c3row "13001"
      (List.mem_singleton.mpr rfl) rfl).mpr
    (Or.inl (by norm_num [communeRows, c3row, List.filter_cons]))

/-! ### Claim C6 — the chunked spatial join preserves rows -/

theorem enumFrom_key_ge {α : Type} :
    ∀ (l : List α) (n : Nat), ∀ x ∈ l.enumFrom n, n ≤ x.1 := by
  intro l
  induction l with
  | nil => intro n x hx; cases hx
  | cons a t ih =>
    intro n x hx
    rw [List.enumFrom_cons] at hx
    rcases List.mem_cons.1 hx with rfl | hx
    · exact Nat.le_refl n
    · exact Nat.le_of_succ_le (ih (n + 1) x hx)

theorem sjoin_left_key_ge {Pt Geom : Type} (within : Pt → Geom → Bool)
    (proj : Pt → Pt) (zones : List (IrisZone Geom)) :
    ∀ (pts : List Pt) (start : Nat), ∀ x ∈ sjoin_left within proj zones start pts,
      start ≤ x.1 := by
  intro pts start x hx
  unfold sjoin_left at hx
  rw [List.mem_flatMap] at hx
  obtain ⟨ip, hip, hx⟩ := hx
  have hge : start ≤ ip.1 := enumFrom_key_ge pts start ip hip
  rcases hzf : zones.filter (fun z => within (proj ip.2) z.geometry) with _ | ⟨m, ms⟩
  · rw [hzf] at hx
    rcases List.mem_singleton.1 hx with rfl
    exact hge
  · rw [hzf] at hx
    obtain ⟨z, _, rfl⟩ := List.mem_map.1 hx
    exact hge

theorem dedupByIdxAux_append_seen {β : Type} (seen : List Nat) :
    ∀ (bs l : List (Nat × β)), (∀ x ∈ bs, x.1 ∈ seen) →
      dedupByIdxAux seen (bs ++ l) = dedupByIdxAux seen l := by
  intro bs
  induction bs with
  | nil => intro l _; rfl
  | cons b t ih =>
    intro l hb
    rw [List.cons_append, dedupByIdxAux, if_pos (hb b (by simp))]
    exact ih l (fun x hx => hb x (List.mem_cons_of_mem b hx))

theorem find?_eq_head?_filter {α : Type} (p : α → Bool) :
    ∀ l : List α, l.find? p = (l.filter p).head? := by
  intro l
  induction l with
  | nil => rfl
  | cons a t ih =>
    cases hpa : p a with
    | true =>
      rw [List.find?_cons_of_pos _ hpa, List.filter_cons_of_pos hpa, List.head?_cons]
    | false =>
      rw [List.find?_cons_of_neg _ (by simp [hpa]), List.filter_cons_of_neg (by simp [hpa]), ih]

theorem dedup_sjoin_left {Pt Geom : Type} (within : Pt → Geom → Bool)
    (proj : Pt → Pt) (zones : List (IrisZone Geom)) :
    ∀ (pts : List Pt) (start : Nat) (seen : List Nat),
      (∀ j ∈ seen, j < start) →
      dedupByIdxAux seen (sjoin_left within proj zones start pts)
        = (pts.enumFrom start).map (fun ip =>
            (ip.1, zones.find? (fun z => within (proj ip.2) z.geometry))) := by
  intro pts
  induction pts with
  | nil => intro start seen _; rfl
  | cons p rest ih =>
    intro start seen hseen
    have hnotin : start ∉ seen := fun h => Nat.lt_irrefl start (hseen start h)
    have hseen' : ∀ j ∈ start :: seen, j < start + 1 := by
      intro j hj
      rcases List.mem_cons.1 hj with rfl | hj
      · exact Nat.lt_succ_self j
      · exact Nat.lt_succ_of_lt (hseen j hj)
    rw [show sjoin_left within proj zones start (p :: rest)
        = (match zones.filter (fun z => within (proj p) z.geometry) with
           | [] => [(start, (none : Option (IrisZone Geom)))]
           | m :: ms => (m :: ms).map (fun z => (start, some z)))
          ++ sjoin_left within proj zones (start + 1) rest from by
      unfold sjoin_left
      rw [List.enumFrom_cons, List.flatMap_cons]]
    rw [List.enumFrom_cons, List.map_cons]
    rw [find?_eq_head?_filter]
    rcases hzf : zones.filter (fun z => within (proj p) z.geometry) with _ | ⟨m, ms⟩
    · rw [hzf, List.singleton_append, dedupByIdxAux, if_neg hnotin]
      rw [ih (start + 1) (start :: seen) hseen']
      rfl
    · rw [hzf]
      rw [show (match m :: ms with
          | [] => [(start, (none : Option (IrisZone Geom)))]
          | z :: zs => List.map (fun z => (start, some z)) (z :: zs))
        = (start, some m) :: ms.map (fun z => (start, some z)) from rfl]
      rw [List.cons_append, dedupByIdxAux, if_neg hnotin]
      rw [dedupByIdxAux_append_seen (start :: seen) (ms.map (fun z => (start, some z)))
          _ (by intro x hx; obtain ⟨z, _, rfl⟩ := List.mem_map.1 hx; simp)]
      rw [ih (start + 1) (start :: seen) hseen']
      rfl

theorem pairwise_idx_enumFrom_map {Pt β : Type} (g : Nat × Pt → β) :
    ∀ (pts : List Pt) (start : Nat),
      List.Pairwise (fun x y => idxLe x y = true)
        ((pts.enumFrom start).map (fun ip => (ip.1, g ip))) := by
  intro pts
  induction pts with
  | nil => intro start; simp
  | cons p rest ih =>
    intro start
    rw [List.enumFrom_cons, List.map_cons, List.pairwise_cons]
    refine ⟨?_, ih (start + 1)⟩
    intro x hx
    obtain ⟨ip, hip, rfl⟩ := List.mem_map.1 hx
    have := enumFrom_key_ge rest (start + 1) ip hip
    simp only [idxLe, decide_eq_true_eq]
    omega

theorem enumFrom_map_snd {Pt β : Type} (h : Pt → β) :
    ∀ (pts : List Pt) (start : Nat),
      (pts.enumFrom start).map (fun ip => h ip.2) = pts.map h := by
  intro pts
  induction pts with
  | nil => intro start; rfl
  | cons p rest ih =>
    intro start
    rw [List.enumFrom_cons, List.map_cons, List.map_cons, ih (start + 1)]

theorem process_chunk_eq {Pt Geom : Type} (within : Pt → Geom → Bool)
    (proj : Pt → Pt) (zones : List (IrisZone Geom)) (pts : List Pt) :
    process_chunk within proj zones pts
      = some (pts.map (firstZoneCols within proj zones)) := by
  simp only [process_chunk]
  rw [show dedupByIdx (sjoin_left within proj zones 0 pts)
      = dedupByIdxAux [] (sjoin_left within proj zones 0 pts) from rfl]
  rw [dedup_sjoin_left within proj zones pts 0 [] (by intro j hj; cases hj)]
  rw [sortByLe_eq_self _ _ (pairwise_idx_enumFrom_map _ pts 0)]
  rw [List.length_map, List.enumFrom_length]
  rw [if_pos rfl]
  rw [List.map_map]
  rw [show ((fun x : Nat × Option (IrisZone Geom) =>
        (x.2.map (fun z => z.code_iris), x.2.map (fun z => z.nom_iris)))
      ∘ (fun ip : Nat × Pt =>
        (ip.1, zones.find? (fun z => within (proj ip.2) z.geometry))))
    = (fun ip : Nat × Pt => firstZoneCols within proj zones ip.2) from rfl]
  rw [enumFrom_map_snd (firstZoneCols within proj zones) pts 0]

theorem sj_loop_eq {Pt Geom : Type} (within : Pt → Geom → Bool)
    (proj : Pt → Pt) (zones : List (IrisZone Geom)) (chunkSize : Nat)
    (hcs : 0 < chunkSize) :
    ∀ (fuel : Nat) (pts : List Pt), pts.length ≤ fuel →
      sj_loop within proj zones chunkSize fuel pts
        = some (pts.map (firstZoneCols within proj zones)) := by
  intro fuel
  induction fuel with
  | zero =>
    intro pts hlen
    rcases pts with _ | ⟨p, rest⟩
    · rfl
    · simp at hlen
  | succ fuel ih =>
    intro pts hlen
    rcases pts with _ | ⟨p, rest⟩
    · rfl
    · rw [sj_loop, process_chunk_eq]
      rw [ih ((p :: rest).drop chunkSize) (by
        rw [List.length_drop, List.length_cons]
        simp only [List.length_cons] at hlen
        omega)]
      rw [show (match some (List.map (firstZoneCols within proj zones) ((p :: rest).take chunkSize)),
            some (List.map (firstZoneCols within proj zones) ((p :: rest).drop chunkSize)) with
          | some r, some tail => some (r ++ tail)
          | _, _ => (none : Option (List (Option String × Option String))))
        = some (List.map (firstZoneCols within proj zones) ((p :: rest).take chunkSize)
            ++ List.map (firstZoneCols within proj zones) ((p :: rest).drop chunkSize)) from rfl]
      rw [← List.map_append, List.take_append_drop]

/-- Claim C6: for every positive chunk size, `spatial_join_iris` never
fails its `len(joined) == chunk_len` assertion and returns exactly one
output row per input row, in input order: the null pair for a point
contained in no polygon, and the code/name of the (first) containing
polygon otherwise — in particular, of the unique containing polygon when
exactly one contains the point. -/
theorem spatial_join_preserves_rows {Pt Geom : Type} (within : Pt → Geom → Bool)
    (proj : Pt → Pt) (zones : List (IrisZone Geom)) (chunkSize : Nat)
    (hcs : 0 < chunkSize) (pts : List Pt) :
    spatial_join_iris within proj zones chunkSize pts
      = some (pts.map (firstZoneCols within proj zones)) :=
  sj_loop_eq within proj zones chunkSize hcs pts.length pts (Nat.le_refl _)

def c6zones : List (IrisZone (List Nat)) :=
  [⟨"IRIS1", "Zone A", [1, 2]⟩, ⟨"IRIS2", "Zone B", [2, 3]⟩]

theorem spatial_join_preserves_rows_witness :
    spatial_join_iris (fun (p : Nat) (g : List Nat) => decide (p ∈ g))
        (fun p => p) c6zones 2 [1, 2, 9]
      = some [(some "IRIS1", some "Zone A"), (some "IRIS1", some "Zone A"),
              (none, none)] := by
  rw [spatial_join_preserves_rows (fun (p : Nat) (g : List Nat) => decide (p ∈ g))
      (fun p => p) c6zones 2 (by norm_num) [1, 2, 9]]
  rfl

/-! ### Claim C5 — order lemmas for the `(dep, typ, annee)` sort -/

theorem clt_trans : ∀ a b c : List Char,
    charListLtB a b = true → charListLtB b c = true → charListLtB a c = true := by
  intro a
  induction a with
  | nil =>
    intro b c hab hbc
    cases b with
    | nil => cases hab
    | cons bh bt =>
      cases c with
      | nil => cases hbc
      | cons ch ct => rfl
  | cons ah t ih =>
    intro b c hab hbc
    cases b with
    | nil => cases hab
    | cons bh bt =>
      cases c with
      | nil => cases hbc
      | cons ch ct =>
        rw [charListLtB] at hab hbc ⊢
        by_cases h1 : ah < bh
        · by_cases h2 : bh < ch
          · rw [if_pos (lt_trans h1 h2)]
          · by_cases h3 : ch < bh
            · rw [if_neg h2, if_pos h3] at hbc; cases hbc
            · have : bh = ch := le_antisymm (not_lt.1 h3) (not_lt.1 h2)
              subst this
              rw [if_pos h1]
        · by_cases h1' : bh < ah
          · rw [if_neg h1, if_pos h1'] at hab; cases hab
          · have : ah = bh := le_antisymm (not_lt.1 h1') (not_lt.1 h1)
            subst this
            rw [if_neg h1, if_neg h1'] at hab
            by_cases h2 : ah < ch
            · rw [if_pos h2]
            · by_cases h3 : ch < ah
              · rw [if_neg h2, if_pos h3] at hbc; cases hbc
              · rw [if_neg h2, if_neg h3] at hbc ⊢
                exact ih bt ct hab hbc

theorem clt_asymm : ∀ a b : List Char,
    charListLtB a b = true → charListLtB b a = true → False := by
  intro a
  induction a with
  | nil =>
    intro b hab hba
    cases b with
    | nil => cases hab
    | cons bh bt => cases hba
  | cons ah t ih =>
    intro b hab hba
    cases b with
    | nil => cases hab
    | cons bh bt =>
      rw [charListLtB] at hab hba
      by_cases h1 : ah < bh
      · rw [if_neg (lt_asymm h1), if_pos h1] at hba; cases hba
      · by_cases h2 : bh < ah
        · rw [if_neg h1, if_pos h2] at hab; cases hab
        · rw [if_neg h1, if_neg h2] at hab
          rw [if_neg h2, if_neg h1] at hba
          exact ih bt hab hba

theorem clt_connex : ∀ a b : List Char,
    a ≠ b → charListLtB a b = true ∨ charListLtB b a = true := by
  intro a
  induction a with
  | nil =>
    intro b hne
    cases b with
    | nil => exact absurd rfl hne
    | cons bh bt => exact Or.inl rfl
  | cons ah t ih =>
    intro b hne
    cases b with
    | nil => exact Or.inr rfl
    | cons bh bt =>
      rw [charListLtB, charListLtB]
      by_cases h1 : ah < bh
      · exact Or.inl (by rw [if_pos h1])
      · by_cases h2 : bh < ah
        · exact Or.inr (by rw [if_pos h2])
        · have heq : ah = bh := le_antisymm (not_lt.1 h2) (not_lt.1 h1)
          subst heq
          have hne' : t ≠ bt := by
            intro h; exact hne (by rw [h])
          rcases ih bt hne' with h | h
          · exact Or.inl (by rw [if_neg h1, if_neg h1]; exact h)
          · exact Or.inr (by rw [if_neg h1, if_neg h1]; exact h)

theorem oLtS_trans : ∀ a b c : Option String,
    oLtS a b = true → oLtS b c = true → oLtS a c = true := by
  intro a b c hab hbc
  cases a with
  | none =>
    cases b with
    | none => cases hab
    | some vb =>
      cases c with
      | none => cases hbc
      | some vc => rfl
  | some va =>
    cases b with
    | none => cases hab
    | some vb =>
      cases c with
      | none => cases hbc
      | some vc => exact clt_trans _ _ _ hab hbc

theorem oLtS_asymm : ∀ a b : Option String,
    oLtS a b = true → oLtS b a = true → False := by
  intro a b hab hba
  cases a with
  | none =>
    cases b with
    | none => cases hab
    | some vb => cases hba
  | some va =>
    cases b with
    | none => cases hab
    | some vb => exact clt_asymm _ _ hab hba

theorem oLtS_connex : ∀ a b : Option String,
    a ≠ b → oLtS a b = true ∨ oLtS b a = true := by
  intro a b hne
  cases a with
  | none =>
    cases b with
    | none => exact absurd rfl hne
    | some vb => exact Or.inl rfl
  | some va =>
    cases b with
    | none => exact Or.inr rfl
    | some vb =>
      have hs : va ≠ vb := by
        intro h; exact hne (by rw [h])
      have hd : va.data ≠ vb.data := by
        intro h
        apply hs
        cases va; cases vb
        exact congrArg String.mk (by simpa using h)
      exact clt_connex _ _ hd

theorem oLeI_trans : ∀ a b c : Option Int,
    oLeI a b = true → oLeI b c = true → oLeI a c = true := by
  intro a b c hab hbc
  cases a with
  | none => rfl
  | some va =>
    cases b with
    | none => cases hab
    | some vb =>
      cases c with
      | none => cases hbc
      | some vc =>
        simp only [oLeI, decide_eq_true_eq] at hab hbc ⊢
        exact le_trans hab hbc

theorem oLeI_total : ∀ a b : Option Int, oLeI a b = true ∨ oLeI b a = true := by
  intro a b
  cases a with
  | none => exact Or.inl rfl
  | some va =>
    cases b with
    | none => exact Or.inr rfl
    | some vb =>
      simp only [oLeI, decide_eq_true_eq]
      exact le_total va vb

theorem lexLe_total : ∀ x y : MedEntry, lexLe x y = true ∨ lexLe y x = true := by
  intro x y
  by_cases hd : x.dep = y.dep
  · rw [lexLe, if_pos hd, lexLe, if_pos hd.symm]
    by_cases ht : x.typ = y.typ
    · rw [if_pos ht, if_pos ht.symm]
      exact oLeI_total _ _
    · rw [if_neg ht, if_neg (Ne.symm ht)]
      exact oLtS_connex _ _ ht
  · rw [lexLe, if_neg hd, lexLe, if_neg (Ne.symm hd)]
    exact oLtS_connex _ _ hd

theorem lexLe_trans : ∀ x y z : MedEntry,
    lexLe x y = true → lexLe y z = true → lexLe x z = true := by
  intro x y z hxy hyz
  rw [lexLe] at hxy hyz ⊢
  by_cases hdxy : x.dep = y.dep
  · by_cases hdyz : y.dep = z.dep
    · rw [if_pos hdxy] at hxy
      rw [if_pos hdyz] at hyz
      rw [if_pos (hdxy.trans hdyz)]
      by_cases htxy : x.typ = y.typ
      · by_cases htyz : y.typ = z.typ
        · rw [if_pos htxy] at hxy
          rw [if_pos htyz] at hyz
          rw [if_pos (htxy.trans htyz)]
          exact oLeI_trans _ _ _ hxy hyz
        · rw [if_pos htxy] at hxy
          rw [if_neg htyz] at hyz
          rw [if_neg (htxy ▸ htyz), htxy]
          exact hyz
      · by_cases htyz : y.typ = z.typ
        · rw [if_neg htxy] at hxy
          rw [if_neg (htyz ▸ htxy), ← htyz]
          exact hxy
        · rw [if_neg htxy] at hxy
          rw [if_neg htyz] at hyz
          by_cases htxz : x.typ = z.typ
          · exact absurd (htxz ▸ hyz) (fun h => oLtS_asymm _ _ hxy h)
          · rw [if_neg htxz]
            exact oLtS_trans _ _ _ hxy hyz
    · rw [if_neg hdyz] at hyz
      rw [if_neg (hdxy ▸ hdyz), hdxy]
      exact hyz
  · by_cases hdyz : y.dep = z.dep
    · rw [if_neg hdxy] at hxy
      rw [if_neg (hdyz ▸ hdxy), ← hdyz]
      exact hxy
    · rw [if_neg hdxy] at hxy
      rw [if_neg hdyz] at hyz
      by_cases hdxz : x.dep = z.dep
      · exact absurd (hdxz ▸ hyz) (fun h => oLtS_asymm _ _ hxy h)
      · rw [if_neg hdxz]
        exact oLtS_trans _ _ _ hxy hyz

theorem lexLe_same_key (x y : MedEntry) (hd : x.dep = y.dep) (ht : x.typ = y.typ) :
    lexLe x y = oLeI x.annee y.annee := by
  rw [lexLe, if_pos hd, if_pos ht]

theorem pairwise_getLast_max {α : Type} {le : α → α → Bool} :
    ∀ {L : List α}, L.Pairwise (fun x y => le x y = true) →
      ∀ {E}, L.getLast? = some E → ∀ x ∈ L, x = E ∨ le x E = true := by
  intro L hpw E hlast x hx
  obtain ⟨ys, rfl⟩ := List.getLast?_eq_some_iff.1 hlast
  rcases List.mem_append.1 hx with hx | hx
  · right
    exact (List.pairwise_append.1 hpw).2.2 x hx E (by simp)
  · left
    simpa using hx

/-! ### Claim C5 — structure of the median and factor tables -/

theorem median_prices_eq (l : List TRow) :
    median_prices l = (dedupFirst (l.map tKey)).map (mkMed l) := by
  unfold median_prices groupBy
  rw [List.map_map]
  rfl

theorem mem_median_prices_form {l : List TRow} {e : MedEntry}
    (he : e ∈ median_prices l) :
    e = mkMed l (e.dep, e.typ, e.annee)
      ∧ (e.dep, e.typ, e.annee) ∈ l.map tKey := by
  rw [median_prices_eq] at he
  obtain ⟨k, hk, rfl⟩ := List.mem_map.1 he
  exact ⟨rfl, (mem_dedupFirst _ _).1 hk⟩

theorem mkMed_mem {l : List TRow} {k : Option String × Option String × Option Int}
    (hk : k ∈ l.map tKey) : mkMed l k ∈ median_prices l := by
  rw [median_prices_eq]
  exact List.mem_map.2 ⟨k, (mem_dedupFirst _ _).2 hk, rfl⟩

theorem key_mem_iff_filter (l : List TRow)
    (k : Option String × Option String × Option Int) :
    k ∈ l.map tKey ↔ l.filter (fun r => decide (tKey r = k)) ≠ [] := by
  constructor
  · intro hk
    obtain ⟨r, hr, hkr⟩ := List.mem_map.1 hk
    exact List.ne_nil_of_mem (List.mem_filter.2 ⟨hr, by simp [hkr]⟩)
  · intro hne
    obtain ⟨r, hr⟩ := List.exists_mem_of_ne_nil _ hne
    have hr' := List.mem_filter.1 hr
    exact List.mem_map.2 ⟨r, hr'.1, by simpa using hr'.2⟩

/-- The reference-year lookup of `adjustment_factors` at a non-null
`(department, type)` key computes exactly `refMedianSpec`. -/
theorem ref_find (refYear : Int) (l : List TRow) (dv tv : String) :
    (match (reference_medians refYear l).find?
        (fun x => decide ((x.dep, x.typ) = (some dv, some tv))) with
     | some x => some x.med
     | none => none)
      = refMedianSpec refYear l dv tv := by
  by_cases hmem : ((some dv : Option String), (some tv : Option String),
      (some refYear : Option Int)) ∈ l.map tKey
  · have hfind : (reference_medians refYear l).find?
        (fun x => decide ((x.dep, x.typ) = (some dv, some tv)))
        = some (mkMed l (some dv, some tv, some refYear)) := by
      apply find?_unique
      · exact List.mem_filter.2 ⟨mkMed_mem hmem, by simp [mkMed]⟩
      · simp [mkMed]
      · intro y hy hpy
        have hy' := List.mem_filter.1 hy
        have hann : y.annee = some refYear := by simpa [mkMed] using hy'.2
        have hdt : (y.dep, y.typ) = ((some dv : Option String), some tv) := by
          simpa using hpy
        have hform := (mem_median_prices_form hy'.1).1
        have hdep : y.dep = some dv := congrArg Prod.fst hdt
        have htyp : y.typ = some tv := congrArg Prod.snd hdt
        rw [hform]
        rw [show (y.dep, y.typ, y.annee)
            = ((some dv : Option String), (some tv : Option String),
               (some refYear : Option Int)) by
          rw [hdep, htyp, hann]]
    rw [hfind]
    rw [refMedianSpec, if_neg (by
      rw [show dtyRows l dv tv refYear
          = l.filter (fun r => decide (tKey r
              = ((some dv : Option String), some tv, some refYear))) from rfl]
      exact (key_mem_iff_filter l _).1 hmem)]
    rfl
  · have hfind : (reference_medians refYear l).find?
        (fun x => decide ((x.dep, x.typ) = (some dv, some tv))) = none := by
      rw [List.find?_eq_none]
      intro y hy hpy
      have hy' := List.mem_filter.1 hy
      have hann : y.annee = some refYear := by simpa [mkMed] using hy'.2
      have hdt : (y.dep, y.typ) = ((some dv : Option String), some tv) := by
        simpa using hpy
      apply hmem
      have hk := (mem_median_prices_form hy'.1).2
      have hdep : y.dep = some dv := congrArg Prod.fst hdt
      have htyp : y.typ = some tv := congrArg Prod.snd hdt
      rw [hdep, htyp, hann] at hk
      exact hk
    rw [hfind]
    rw [refMedianSpec, if_pos (by
      by_contra hne
      exact hmem ((key_mem_iff_filter l _).2 hne))]

/-- The latest-median lookup of `adjustment_factors` at a non-null
`(department, type)` key with at least one observed year computes exactly
`mostRecentMedianSpec`: sorting by `(dep, typ, annee)` and taking the last
entry of the `(dep, typ)` group selects the median of the most recent
observed year. -/
theorem latest_find (l : List TRow) (dv tv : String) (av : Int)
    (hkmem : ((some dv : Option String), (some tv : Option String),
        (some av : Option Int)) ∈ l.map tKey) :
    (match (latest_medians l).find?
        (fun x => decide ((x.1, x.2.1) = (some dv, some tv))) with
     | some x => x.2.2
     | none => none)
      = mostRecentMedianSpec l dv tv := by
  have hlm : latest_medians l
      = (dedupFirst ((sortByLe lexLe (median_prices l)).map
            (fun e => (e.dep, e.typ)))).map
          (fun k => (k.1, k.2,
            ((sortByLe lexLe (median_prices l)).filter
                (fun e => decide ((e.dep, e.typ) = k))).getLast?.map
              (fun e => e.med))) := by
    unfold latest_medians groupBy
    rw [List.map_map]
    rfl
  have hEa_S : mkMed l (some dv, some tv, some av)
      ∈ sortByLe lexLe (median_prices l) :=
    (mem_sortByLe _ _ _).2 (mkMed_mem hkmem)
  have hdkey : ((some dv : Option String), (some tv : Option String))
      ∈ (sortByLe lexLe (median_prices l)).map (fun e => (e.dep, e.typ)) :=
    List.mem_map.2 ⟨_, hEa_S, rfl⟩
  have hfind := find?_map_nodup
      (fun k => (k.1, k.2,
        ((sortByLe lexLe (median_prices l)).filter
            (fun e => decide ((e.dep, e.typ) = k))).getLast?.map
          (fun e => e.med)))
      (fun x => (x.1, x.2.1)) (fun k => rfl) _
      (nodup_dedupFirst _) _ ((mem_dedupFirst _ _).2 hdkey)
  rw [hlm, hfind]
  show ((sortByLe lexLe (median_prices l)).filter
      (fun e => decide ((e.dep, e.typ)
        = ((some dv : Option String), (some tv : Option String))))).getLast?.map
        (fun e => e.med)
    = mostRecentMedianSpec l dv tv
  set G := (sortByLe lexLe (median_prices l)).filter
      (fun e => decide ((e.dep, e.typ)
        = ((some dv : Option String), (some tv : Option String)))) with hGdef
  have hEaG : mkMed l (some dv, some tv, some av) ∈ G :=
    List.mem_filter.2 ⟨hEa_S, by simp [mkMed]⟩
  obtain ⟨E, hE⟩ : ∃ E, G.getLast? = some E := by
    cases hgl : G.getLast? with
    | none =>
      exact absurd (List.getLast?_eq_none_iff.1 hgl) (List.ne_nil_of_mem hEaG)
    | some E => exact ⟨E, rfl⟩
  have hpwG : G.Pairwise (fun x y => lexLe x y = true) :=
    (pairwise_sortByLe lexLe_trans lexLe_total _).filter _
  have hmax := pairwise_getLast_max hpwG hE
  have hEG : E ∈ G := by
    obtain ⟨ys, hys⟩ := List.getLast?_eq_some_iff.1 hE
    rw [hys]
    exact List.mem_append.2 (Or.inr (by simp))
  have hEfilter := List.mem_filter.1 hEG
  have hEdt : (E.dep, E.typ) = ((some dv : Option String), some tv) := by
    simpa using hEfilter.2
  have hEdep : E.dep = some dv := congrArg Prod.fst hEdt
  have hEtyp : E.typ = some tv := congrArg Prod.snd hEdt
  obtain ⟨hEform, hEkey⟩ :=
    mem_median_prices_form ((mem_sortByLe _ _ _).1 hEfilter.1)
  have hGle : ∀ x ∈ G, oLeI x.annee E.annee = true ∨ x = E := by
    intro x hx
    rcases hmax x hx with heq | hle
    · exact Or.inr heq
    · left
      have hx' := List.mem_filter.1 hx
      have hxdt : (x.dep, x.typ) = ((some dv : Option String), some tv) := by
        simpa using hx'.2
      have hxdep : x.dep = some dv := congrArg Prod.fst hxdt
      have hxtyp : x.typ = some tv := congrArg Prod.snd hxdt
      rw [← lexLe_same_key x E (by rw [hxdep, hEdep]) (by rw [hxtyp, hEtyp])]
      exact hle
  obtain ⟨ystar, hEann⟩ : ∃ y, E.annee = some y := by
    rcases hGle _ hEaG with hle | heq
    · cases hEann : E.annee with
      | none =>
        rw [show (mkMed l (some dv, some tv, some av)).annee
            = (some av : Option Int) from rfl, hEann] at hle
        cases hle
      | some y => exact ⟨y, rfl⟩
    · exact ⟨av, by rw [← heq]; rfl⟩
  have hyMem : ystar ∈ dtYears l dv tv := by
    rw [hEdep, hEtyp, hEann] at hEkey
    obtain ⟨r', hr', hkr'⟩ := List.mem_map.1 hEkey
    have hd : r'.code_departement = some dv := congrArg (fun p => p.1) hkr'
    have ht : r'.type_local = some tv :=
      congrArg (fun p => p.2.1) hkr'
    have hy : tYear r' = some ystar := congrArg (fun p => p.2.2) hkr'
    exact List.mem_filterMap.2
      ⟨r', List.mem_filter.2 ⟨hr', by simp [hd, ht]⟩, hy⟩
  have hub : ∀ y ∈ dtYears l dv tv, y ≤ ystar := by
    intro y hy
    obtain ⟨r', hr'dt, hyr'⟩ := List.mem_filterMap.1 hy
    have hr'f := List.mem_filter.1 hr'dt
    have hdep' : r'.code_departement = some dv ∧ r'.type_local = some tv := by
      simpa using hr'f.2
    have hkey' : tKey r' = (some dv, some tv, some y) := by
      rw [tKey, hdep'.1, hdep'.2, hyr']
    have hkmem' : ((some dv : Option String), (some tv : Option String),
        (some y : Option Int)) ∈ l.map tKey :=
      List.mem_map.2 ⟨r', hr'f.1, hkey'⟩
    have hyG : mkMed l (some dv, some tv, some y) ∈ G :=
      List.mem_filter.2 ⟨(mem_sortByLe _ _ _).2 (mkMed_mem hkmem'), by simp [mkMed]⟩
    rcases hGle _ hyG with hle | heq
    · rw [show (mkMed l (some dv, some tv, some y)).annee
          = (some y : Option Int) from rfl, hEann] at hle
      simpa [oLeI] using hle
    · have hsome : (some y : Option Int) = some ystar := by
        rw [show (some y : Option Int)
            = (mkMed l (some dv, some tv, some y)).annee from rfl, heq, hEann]
      obtain rfl := Option.some.inj hsome
      exact le_refl y
  haveI anti : Std.Antisymm (fun x y : Int => x ≤ y) :=
    ⟨fun h h' => le_antisymm h h'⟩
  have hmaxEq : (dtYears l dv tv).max? = some ystar := by
    rw [List.max?_eq_some_iff (fun a => le_refl a) (fun a b => max_choice a b)
      (fun a b c => max_le_iff)]
    exact ⟨hyMem, hub⟩
  have hmed : E.med = yearMedian l dv tv ystar := by
    rw [show E.med = (mkMed l (E.dep, E.typ, E.annee)).med from by rw [← hEform]]
    rw [hEdep, hEtyp, hEann]
    rfl
  rw [hE, mostRecentMedianSpec, hmaxEq]
  simp only [Option.map_some']
  rw [hmed]

/-- The factor-table lookup at a fully non-null key present in the data
finds exactly the entry for that key. -/
theorem adj_find (refYear : Int) (l : List TRow) (dv tv : String) (av : Int)
    (hkmem : ((some dv : Option String), (some tv : Option String),
        (some av : Option Int)) ∈ l.map tKey) :
    (adjustment_factors refYear l).find?
        (fun x => decide ((x.dep, x.typ, x.annee)
          = ((some dv : Option String), (some tv : Option String),
             (some av : Option Int))))
      = some ⟨some dv, some tv, some av, adjFactorAt refYear l dv tv av⟩ := by
  unfold adjustment_factors
  apply find?_unique
  · exact List.mem_map.2 ⟨mkMed l (some dv, some tv, some av), mkMed_mem hkmem, rfl⟩
  · simp
  · intro y hy hpy
    obtain ⟨e', he', rfl⟩ := List.mem_map.1 hy
    have hkey : (e'.dep, e'.typ, e'.annee)
        = ((some dv : Option String), (some tv : Option String),
           (some av : Option Int)) := of_decide_eq_true hpy
    obtain ⟨hf, hk⟩ := mem_median_prices_form he'
    have he2 : e' = mkMed l (some dv, some tv, some av) := hkey ▸ hf
    rw [he2]
    rfl

/-- On a key present in the data, the stored factor is exactly the
factor of the specification: reference-year median (falling back to the
median of the most recent year) over the median of the year, defaulting to
`1.0` when the
year median is not positive or no target median exists. -/
theorem adjFactorAt_eq_spec (refYear : Int) (l : List TRow) (dv tv : String)
    (av : Int)
    (hkmem : ((some dv : Option String), (some tv : Option String),
        (some av : Option Int)) ∈ l.map tKey) :
    adjFactorAt refYear l dv tv av = factorSpec refYear l dv tv av := by
  unfold adjFactorAt factorSpec
  rw [ref_find refYear l dv tv, latest_find l dv tv av hkmem]
  rfl

/-- Claim C5: for every row produced by `compute_time_adjusted_price`, if
the department, type and transaction year of the row are all non-null then
`prix_m2_ajuste = prix_m2 * factor`, where the factor is the reference-year
median of `prix_m2` for the (department, type) divided by that year's
median, falling back to the median of the most recent observed year when the
reference year has no observations, and defaulting to `1.0` when the year
median is not positive or no target median exists; when any key component
is null, no factor is found and `prix_m2_ajuste = prix_m2` (factor 1.0). -/
theorem time_adjusted_price_spec (refYear : Int) (l : List TRow) (r : TRowAdj)
    (h : r ∈ compute_time_adjusted_price refYear l) :
    (∀ dv tv av, r.code_departement = some dv → r.type_local = some tv →
        r.annee_mutation = some av →
        r.prix_m2_ajuste = r.prix_m2 * factorSpec refYear l dv tv av)
      ∧ ((r.code_departement = none ∨ r.type_local = none
           ∨ r.annee_mutation = none) →
        r.prix_m2_ajuste = r.prix_m2) := by
  obtain ⟨r0, hr0, rfl⟩ := List.mem_map.1 h
  constructor
  · intro dv tv av hdv htv hav
    have hdv' : r0.code_departement = some dv := hdv
    have htv' : r0.type_local = some tv := htv
    have hav' : tYear r0 = some av := hav
    have hkey : tKey r0 = (some dv, some tv, some av) := by
      rw [tKey, hdv', htv', hav']
    have hkmem : ((some dv : Option String), (some tv : Option String),
        (some av : Option Int)) ∈ l.map tKey := List.mem_map.2 ⟨r0, hr0, hkey⟩
    show r0.prix_m2 * (Option.getD
        (match r0.code_departement, r0.type_local, tYear r0 with
         | some _, some _, some _ =>
           match (adjustment_factors refYear l).find?
               (fun x => decide ((x.dep, x.typ, x.annee) = tKey r0)) with
           | some x => some x.factor
           | none => none
         | _, _, _ => none) 1)
      = r0.prix_m2 * factorSpec refYear l dv tv av
    rw [hkey, hdv', htv', hav']
    rw [adj_find refYear l dv tv av hkmem]
    show r0.prix_m2 * adjFactorAt refYear l dv tv av
      = r0.prix_m2 * factorSpec refYear l dv tv av
    rw [adjFactorAt_eq_spec refYear l dv tv av hkmem]
  · intro hnull
    show r0.prix_m2 * (Option.getD
        (match r0.code_departement, r0.type_local, tYear r0 with
         | some _, some _, some _ =>
           match (adjustment_factors refYear l).find?
               (fun x => decide ((x.dep, x.typ, x.annee) = tKey r0)) with
           | some x => some x.factor
           | none => none
         | _, _, _ => none) 1)
      = r0.prix_m2
    rcases hd : r0.code_departement with _ | dv
    · simp
    · rcases ht : r0.type_local with _ | tv
      · simp
      · rcases ha : tYear r0 with _ | av
        · simp
        · exfalso
          rcases hnull with h0 | h0 | h0
          · have h0' : r0.code_departement = none := h0
            rw [hd] at h0'; cases h0'
          · have h0' : r0.type_local = none := h0
            rw [ht] at h0'; cases h0'
          · have h0' : tYear r0 = none := h0
            rw [ha] at h0'; cases h0'

def c5row2024 : TRow :=
  { code_departement := some "75", type_local := some "Maison",
    date_mutation := some ⟨2024, 3, 1⟩, prix_m2 := 4000 }

def c5row2025 : TRow :=
  { code_departement := some "75", type_local := some "Maison",
    date_mutation := some ⟨2025, 2, 1⟩, prix_m2 := 5000 }

def c5out : TRowAdj :=
  ctapRow (adjustment_factors 2025 [c5row2024, c5row2025]) c5row2024

theorem time_adjusted_price_spec_witness :
    c5out.prix_m2_ajuste
      = c5out.prix_m2 * factorSpec 2025 [c5row2024, c5row2025] "75" "Maison" 2024 :=
  (time_adjusted_price_spec 2025 [c5row2024, c5row2025] c5out
      (List.mem_map.2 ⟨c5row2024, by simp, rfl⟩)).1
    "75" "Maison" 2024 rfl rfl rfl

/-! ### Claim C7 — land-use deduplication (corrected: null keys are dropped) -/

/-- The row refuting claim C7 as stated: its `nature_culture` equals the
first-encountered `nature_culture` of its group, yet it is dropped because
its `id_mutation` is null and the left join back never matches a null key. -/
def c7nullRow : RawRow :=
  { id_mutation := none, date_mutation := some ⟨2024, 1, 15⟩,
    numero_disposition := some 1, nature_mutation := some "Vente",
    valeur_fonciere := some 317000, code_commune := some "75056",
    code_departement := some "75", id_parcelle := some "P1",
    type_local := some "Maison", surface_reelle_bati := some 120,
    nombre_pieces_principales := some 5, code_nature_culture := some "unknown",
    nature_culture := some "unknown", code_nature_culture_speciale := some "unknown",
    nature_culture_speciale := some "unknown", surface_terrain := none,
    longitude := some 2, latitude := some 48 }

/-- Counterexample to claim C7 as stated: a row whose `nature_culture`
equals the first-encountered `nature_culture` of its
`(id_mutation, numero_disposition, id_parcelle, nature_mutation)` group is
nevertheless dropped by `remove_duplicate_lines`, because `id_mutation` is
null. -/
theorem remove_duplicates_null_key_cex :
    c7nullRow ∈ [c7nullRow]
      ∧ c7nullRow.nature_culture = groupFirstCulture [c7nullRow] (dedupKey c7nullRow)
      ∧ c7nullRow ∉ remove_duplicate_lines [c7nullRow] := by
  refine ⟨List.mem_singleton.mpr rfl, rfl, ?_⟩
  intro hmem
  have he : remove_duplicate_lines [c7nullRow] = [] := rfl
  rw [he] at hmem
  cases hmem

/-- Claim C7 (amended): after null land-use values are normalised to
`"unknown"`, `remove_duplicate_lines` retains exactly the rows whose four
grouping-key columns are all non-null and whose `nature_culture` equals the
first-encountered `nature_culture` of their
`(id_mutation, numero_disposition, id_parcelle, nature_mutation)` group;
a row with a null in any of the four key columns is always dropped. -/
theorem remove_duplicates_characterization (l : List RawRow) (r : RawRow)
    (hmem : r ∈ l) (hfill : ∀ x ∈ l, x.nature_culture.isSome) :
    r ∈ remove_duplicate_lines l ↔
      dedupKeyNonNull r ∧ r.nature_culture = groupFirstCulture l (dedupKey r) := by
  obtain ⟨v, hv⟩ := Option.isSome_iff_exists.1 (hfill r hmem)
  simp only [remove_duplicate_lines, List.mem_filter, hmem, true_and]
  rcases hmi : r.id_mutation with _ | i
  · simp [dedupKeyNonNull, hmi, hv]
  rcases hnd : r.numero_disposition with _ | d
  · simp [dedupKeyNonNull, hmi, hnd, hv]
  rcases hip : r.id_parcelle with _ | pzz
  · simp [dedupKeyNonNull, hmi, hnd, hip, hv]
  rcases hnm : r.nature_mutation with _ | nm
  · simp [dedupKeyNonNull, hmi, hnd, hip, hnm, hv]
  have hknn : dedupKeyNonNull r := by
    simp [dedupKeyNonNull, hmi, hnd, hip, hnm]
  have hkmem : dedupKey r ∈ l.map dedupKey := List.mem_map.2 ⟨r, hmem, rfl⟩
  have hfind :
      ((dedupFirst (l.map dedupKey)).map
          (fun k => (k, firstAgg (fun x => x.nature_culture)
            (l.filter (fun a => decide (dedupKey a = k)))))).find?
        (fun e => decide (e.1 = dedupKey r))
      = some (dedupKey r, firstAgg (fun x => x.nature_culture)
          (l.filter (fun a => decide (dedupKey a = dedupKey r)))) := by
    exact find?_map_nodup _ Prod.fst (fun k => rfl) _
      (nodup_dedupFirst _) (dedupKey r) ((mem_dedupFirst _ _).2 hkmem)
  simp only [groupBy, List.map_map]
  rw [show ((fun kg : _ × List RawRow =>
        (kg.1, firstAgg (fun x => x.nature_culture) kg.2)) ∘
      (fun k => (k, l.filter (fun a => decide (dedupKey a = k)))))
    = (fun k => (k, firstAgg (fun x => x.nature_culture)
        (l.filter (fun a => decide (dedupKey a = k))))) from rfl]
  rw [hfind, hv]
  simp only [hknn, true_and]
  rw [show (firstAgg (fun x => x.nature_culture)
      (l.filter (fun a => decide (dedupKey a = dedupKey r))))
    = groupFirstCulture l (dedupKey r) from rfl]
  cases hgf : groupFirstCulture l (dedupKey r) with
  | none => simp
  | some b => simp [decide_eq_true_eq]

def c7okRow : RawRow :=
  { c7nullRow with id_mutation := some "2024-1" }

theorem remove_duplicates_characterization_witness :
    c7okRow ∈ remove_duplicate_lines [c7okRow] :=
  (remove_duplicates_characterization [c7okRow] c7okRow (List.mem_singleton.mpr rfl)
      (by intro x hx; rw [List.mem_singleton] at hx; subst hx; rfl)).mpr
    ⟨⟨rfl, rfl, rfl, rfl⟩, rfl⟩

set_option maxRecDepth 8000 in
theorem aggregate_dvf_unique_key_witness :
    (((aggregate_dvf [c1raw1, c1raw2]).getD []).map keyR).Nodup := by
  have h : aggregate_dvf [c1raw1, c1raw2]
      = some ((aggregate_dvf [c1raw1, c1raw2]).getD []) := by rfl
  exact aggregate_dvf_unique_key [c1raw1, c1raw2] _ h

end DVF
